import Mathlib

/-!
Verification development for the finp backend core: a shallow embedding of
the SQL dialect normalizer, virtual-table binder, read-only/allowlist guard,
chart-spec validator, dataset binder and the streaming orchestrator
(`src/backend/src/app/db.py`, `src/backend/src/mcp_tools/db_server.py`,
`src/backend/src/app/agent.py`), together with theorems settling the
specification claims about them.

Strings are modelled at the ASCII level: Python `str.strip`/`upper`/`lower`
and the `re` character classes `\w`, `\s`, `\d` are embedded with their ASCII
meaning, which covers every string manipulated by this code base.
-/

set_option maxRecDepth 16000

namespace Finp

/-- Character code 34, the double-quote character. -/
def qChar : Char := Char.ofNat 34

/-- Character code 39, the apostrophe (single-quote) character. -/
def apChar : Char := Char.ofNat 39

/-- Character code 96, the backtick character. -/
def btChar : Char := Char.ofNat 96

/-- One-character string holding an apostrophe. -/
def apStr : String := ⟨[apChar]⟩

/-- Python `str.strip` whitespace set: space, tab, newline, carriage return,
vertical tab, form feed (matches the `re` class `\s` at the ASCII level). -/
def isPyWS (c : Char) : Bool :=
  c = ' ' || c = '\t' || c = '\n' || c = '\r' || c = Char.ofNat 11 || c = Char.ofNat 12

/-- Drop leading Python whitespace (Python `str.lstrip`). -/
def stripLead (cs : List Char) : List Char := cs.dropWhile isPyWS

/-- Drop trailing Python whitespace (Python `str.rstrip`). -/
def stripTrail (cs : List Char) : List Char := (cs.reverse.dropWhile isPyWS).reverse

/-- Python `str.strip` on a character list. -/
def pyStripL (cs : List Char) : List Char := stripTrail (stripLead cs)

/-- Python `str.strip` on a string. -/
def pyStrip (s : String) : String := ⟨pyStripL s.data⟩

/-- ASCII lower-casing of a character list (Python `str.lower`). -/
def lowerL (cs : List Char) : List Char := cs.map Char.toLower

/-- ASCII upper-casing of a character list (Python `str.upper`). -/
def upperL (cs : List Char) : List Char := cs.map Char.toUpper

/-- ASCII lower-casing of a string. -/
def toLowerStr (s : String) : String := ⟨lowerL s.data⟩

/-- A `\w` word character at the ASCII level: letter, digit or underscore. -/
def isWordChar (c : Char) : Bool := c.isAlphanum || c = '_'

/-- Whether an optional preceding character is a word character; `none`
stands for the start of the string (no preceding character). -/
def isWordOpt : Option Char → Bool
  | some c => isWordChar c
  | none => false

/-- `startsWithL pat cs` is true when `pat` is a prefix of `cs`. -/
def startsWithL (pat cs : List Char) : Bool := pat.isPrefixOf cs

/-- Case-sensitive substring containment on character lists. -/
def containsL (pat : List Char) : List Char → Bool
  | [] => pat.isPrefixOf []
  | c :: cs => pat.isPrefixOf (c :: cs) || containsL pat (cs)

/-- Substring containment on strings (Python `in`). -/
def containsStr (pat s : String) : Bool := containsL pat.data s.data

/-- ASCII case-insensitive character equality. -/
def charEqCI (a b : Char) : Bool := a.toLower = b.toLower

/-- Case-insensitive prefix test. -/
def startsWithCI : List Char → List Char → Bool
  | [], _ => true
  | _ :: _, [] => false
  | p :: ps, c :: cs => charEqCI p c && startsWithCI ps cs

/-- Case-insensitive substring containment. -/
def containsCI (pat : List Char) : List Char → Bool
  | [] => startsWithCI pat []
  | c :: cs => startsWithCI pat (c :: cs) || containsCI pat cs

/-- Maximal runs of word characters, accumulator-based helper. -/
def wordTokensAux : List Char → List Char → List (List Char)
  | [], acc => if acc.isEmpty then [] else [acc.reverse]
  | c :: cs, acc =>
    if isWordChar c then wordTokensAux cs (c :: acc)
    else if acc.isEmpty then wordTokensAux cs [] else acc.reverse :: wordTokensAux cs []

/-- The maximal word-character runs of a character list.  A whole-word
(`\b`-delimited) occurrence of a purely alphanumeric keyword is exactly an
occurrence as one of these runs. -/
def wordTokens (cs : List Char) : List (List Char) := wordTokensAux cs []

/-- Keywords blocked by `enforce_readonly` (`db.py` line 36). -/
def bannedWords : List String :=
  ["INSERT", "UPDATE", "DELETE", "DROP", "ALTER", "CREATE", "GRANT", "REVOKE",
   "TRUNCATE", "VACUUM", "SET", "COPY"]

/-- Whether some maximal word token of `cs` is one of the banned keywords;
this is the `re.search` of `\b(INSERT|...|COPY)\b` performed on the
upper-cased SQL in `enforce_readonly`. -/
def bannedPresent (cs : List Char) : Bool :=
  (wordTokens cs).any (fun t => bannedWords.any (fun b => b.data == t))

/-- Python `str.rstrip(";")`: drop trailing semicolons. -/
def dropTrailSemis (cs : List Char) : List Char := (cs.reverse.dropWhile (· = ';')).reverse

/-- `enforce_readonly` from `src/backend/src/app/db.py` (lines 18-59).  The
`strict` flag models the `DB_READONLY_STRICT` environment switch; an
`Except.error` models a raised `ValueError`. -/
def enforce_readonly (sql : String) (strict : Bool) : Except String Unit :=
  if sql = "" then .error "Query must be a non-empty string" else
  let s := pyStripL sql.data
  let su := upperL s
  if bannedPresent su then .error "Only read-only queries are permitted" else
  if strict then
    if (dropTrailSemis (pyStripL su)).any (· = ';') then
      .error "Multiple statements are not allowed in strict read-only mode"
    else if startsWithL "(".data su then .ok ()
    else if startsWithL "SELECT".data su || startsWithL "WITH".data su then .ok ()
    else .error "Only SELECT/WITH statements are allowed in strict read-only mode"
  else
    if startsWithL "SELECT".data su || startsWithL "WITH".data su ||
       startsWithL "EXPLAIN".data su || startsWithL "VALUES".data su ||
       startsWithL "(".data su then .ok ()
    else if containsL "SELECT".data su then .ok ()
    else .error "Only read-only SELECT/CTE statements are allowed"

/-- Whether an `Except`-modelled guard accepted (did not raise). -/
def exceptOk : Except String Unit → Bool
  | .ok _ => true
  | .error _ => false

/-- One table of a chart context (`TableRef` of the data model).  The empty
string for `name` or `base_sql` models a missing/falsy Python value. -/
structure TableRef where
  name : String
  columns : List String
  base_sql : String
deriving DecidableEq

/-- A chart context: an ordered list of table references. -/
structure ChartContext where
  tables : List TableRef
deriving DecidableEq

/-- Identifier characters of the strict-allowlist table regex class
`[\w\."]`. -/
def identCharB (c : Char) : Bool := isWordChar c || c = '.' || c = qChar

/-- `_strip_quotes` from `enforce_allowlist` (`db.py` lines 99-105). -/
def stripQuotes (cs : List Char) : List Char :=
  let n := pyStripL cs
  match n.head?, n.getLast? with
  | some a, some b =>
    if a = qChar && b = qChar then (n.drop 1).dropLast
    else if a = apChar && b = apChar then (n.drop 1).dropLast
    else n
  | _, _ => n

/-- The segment after the last dot (Python `name.split(".")[-1]`),
accumulator-based helper. -/
def lastSegAux : List Char → List Char → List Char
  | [], acc => acc.reverse
  | c :: cs, acc => if c = '.' then lastSegAux cs [] else lastSegAux cs (c :: acc)

/-- The segment after the last dot of an identifier (schema-prefix strip). -/
def lastSeg (cs : List Char) : List Char := lastSegAux cs []

/-- Try to match `\bKW\s+([\w\."]+)` at the head of `cs`, given the previous
character `prev` (for the word boundary).  Returns the captured identifier,
the rest of the input after the match, and the last consumed character. -/
def kwMatchAt (kw : List Char) (prev : Option Char) (cs : List Char) :
    Option (List Char × List Char × Char) :=
  if isWordOpt prev then none
  else if startsWithCI kw cs then
    let r1 := cs.drop kw.length
    match r1 with
    | [] => none
    | a :: _ =>
      if isPyWS a then
        let r2 := r1.dropWhile isPyWS
        let ident := r2.takeWhile identCharB
        match ident.getLast? with
        | none => none
        | some lc => some (ident, r2.drop ident.length, lc)
      else none
  else none

/-- All identifiers captured by non-overlapping matches of
`\bKW\s+([\w\."]+)` (the `re.finditer` loop of `_extract_tables`). -/
def findKwAux (kw : List Char) : Nat → Option Char → List Char → List (List Char)
  | 0, _, _ => []
  | _ + 1, _, [] => []
  | fuel + 1, prev, c :: cs =>
    match kwMatchAt kw prev (c :: cs) with
    | some (ident, rest, lc) => ident :: findKwAux kw fuel (some lc) rest
    | none => findKwAux kw fuel (some c) cs

/-- Order-preserving first-occurrence deduplication, helper. -/
def dedupStrAux : List String → List String → List String
  | [], _ => []
  | x :: xs, seen =>
    if seen.contains x then dedupStrAux xs seen else x :: dedupStrAux xs (x :: seen)

/-- Order-preserving first-occurrence deduplication (Python
`list(dict.fromkeys(...))`). -/
def dedupStr (l : List String) : List String := dedupStrAux l []

/-- `_extract_tables` from `enforce_allowlist` (`db.py` lines 107-116):
identifiers following `FROM` then `JOIN`, quote-stripped,
schema-prefix-stripped, lower-cased, deduplicated in order. -/
def extractTables (cs : List Char) : List String :=
  let fromIdents := findKwAux "from".data cs.length none cs
  let joinIdents := findKwAux "join".data cs.length none cs
  dedupStr ((fromIdents ++ joinIdents).map (fun i => ⟨lowerL (lastSeg (stripQuotes i))⟩))

/-! ### Dialect normalizer (`db_server.py`, `normalize_sql`, lines 28-93)

Each `re.sub` rule is embedded as a left-to-right scanner: at every position
of the original string it either applies the rule's (faithfully embedded)
match attempt, emitting the replacement and resuming after the matched text,
or moves one character forward.  This is exactly `re.sub`'s non-overlapping
leftmost scan; word boundaries of a later match are judged against the
original consumed character, as in `re`. -/

/-- A match attempt at the head of the input: given the previously consumed
character (`none` at the start of the string) and the remaining input, yield
the replacement text, the input remaining after the match, and the last
character consumed by the match. -/
def Matcher := Option Char → List Char → Option (List Char × List Char × Option Char)

/-- Fuel-indexed scanner applying a `Matcher` at every position, leftmost,
non-overlapping (the engine of `re.sub`).  The fuel is set to the input
length; every match consumes at least one character. -/
def rewriteAux (m : Matcher) : Nat → Option Char → List Char → List Char
  | 0, _, cs => cs
  | _ + 1, _, [] => []
  | fuel + 1, prev, c :: cs =>
    match m prev (c :: cs) with
    | some (rep, rest, p2) => rep ++ rewriteAux m fuel p2 rest
    | none => c :: rewriteAux m fuel (some c) cs

/-- Apply one rewrite rule to a whole string. -/
def applyRule (m : Matcher) (s : String) : String :=
  ⟨rewriteAux m s.data.length none s.data⟩

/-- Consume a case-insensitive literal. -/
def eatCI (pat cs : List Char) : Option (List Char) :=
  if startsWithCI pat cs then some (cs.drop pat.length) else none

/-- Consume `\s*`. -/
def eatWS (cs : List Char) : List Char := cs.dropWhile isPyWS

/-- Consume `\s+` (at least one whitespace character). -/
def eatWS1 : List Char → Option (List Char)
  | [] => none
  | c :: cs => if isPyWS c then some ((c :: cs).dropWhile isPyWS) else none

/-- Consume one literal character. -/
def eatCh (ch : Char) : List Char → Option (List Char)
  | [] => none
  | c :: cs => if c = ch then some cs else none

/-- Consume `\d+`: a maximal nonempty run of ASCII digits. -/
def digits1 (cs : List Char) : Option (List Char × List Char) :=
  let d := cs.takeWhile Char.isDigit
  if d.isEmpty then none else some (d, cs.drop d.length)

/-- Consume `[^X]+` up to (excluding) the stop character: the maximal
nonempty run of non-stop characters. -/
def seg (stop : Char) (cs : List Char) : Option (List Char × List Char) :=
  let b := cs.takeWhile (· ≠ stop)
  if b.isEmpty then none else some (b, cs.drop b.length)

/-- Group value of `\(\s*([^X]+)` applied to the full bracket body `b`: the
greedy `\s*` drops leading whitespace, backtracking to leave at least one
character for the nonempty group. -/
def grpKeep (b : List Char) : List Char :=
  let t := b.dropWhile isPyWS
  if t.isEmpty then b.drop (b.length - 1) else t

/-- `\bCURDATE\s*\(\s*\)\b  →  CURRENT_DATE`.  The trailing `\b` after `)`
requires the next character to be a word character. -/
def mCURDATE : Matcher := fun prev cs =>
  if isWordOpt prev then none else
  match eatCI "CURDATE".data cs with
  | none => none
  | some r1 =>
    match eatCh '(' (eatWS r1) with
    | none => none
    | some r2 =>
      match eatCh ')' (eatWS r2) with
      | none => none
      | some r3 =>
        match r3 with
        | c :: _ => if isWordChar c then some ("CURRENT_DATE".data, r3, some ')') else none
        | [] => none

/-- The interval units accepted by `DATE_SUB`/`DATE_ADD`, with canonical
lower-case spelling; at most one can match at a given position. -/
def unitMatch : List Char → Option (List Char × List Char) :=
  fun cs =>
    (["YEAR", "MONTH", "DAY", "HOUR", "MINUTE", "SECOND"].firstM fun u =>
      if startsWithCI u.data cs then some ((toLowerStr u).data, cs.drop u.length) else none)

/-- `DATE_SUB/DATE_ADD(expr, INTERVAL n unit)  →  (expr) ∓ INTERVAL 'n unit'`
(`db_server.py` lines 38-52); `sign` is the emitted operator character. -/
def mDateArith (kw : List Char) (sign : Char) : Matcher := fun _ cs =>
  match eatCI kw cs with
  | none => none
  | some r1 =>
  match eatCh '(' (eatWS r1) with
  | none => none
  | some r2 =>
  match seg ',' r2 with
  | none => none
  | some (b1, r3) =>
  match eatCh ',' r3 with
  | none => none
  | some r4 =>
  match eatCI "INTERVAL".data (eatWS r4) with
  | none => none
  | some r5 =>
  match eatWS1 r5 with
  | none => none
  | some r6 =>
  match digits1 r6 with
  | none => none
  | some (num, r7) =>
  match eatWS1 r7 with
  | none => none
  | some r8 =>
  match unitMatch r8 with
  | none => none
  | some (u, r9) =>
  match eatCh ')' (eatWS r9) with
  | none => none
  | some r10 =>
    some (('(' :: pyStripL b1) ++ [')', ' ', sign, ' '] ++ "INTERVAL ".data ++
          [apChar] ++ num ++ [' '] ++ u ++ [apChar], r10, some ')')

/-- `UNIX_TIMESTAMP\s*\(\s*\)  →  EXTRACT(EPOCH FROM now())`. -/
def mUnixEmpty : Matcher := fun _ cs =>
  match eatCI "UNIX_TIMESTAMP".data cs with
  | none => none
  | some r1 =>
  match eatCh '(' (eatWS r1) with
  | none => none
  | some r2 =>
  match eatCh ')' (eatWS r2) with
  | none => none
  | some r3 => some ("EXTRACT(EPOCH FROM now())".data, r3, some ')')

/-- `UNIX_TIMESTAMP\s*\(\s*([^\)]+)\s*\)  →  EXTRACT(EPOCH FROM \1)`. -/
def mUnixExpr : Matcher := fun _ cs =>
  match eatCI "UNIX_TIMESTAMP".data cs with
  | none => none
  | some r1 =>
  match eatCh '(' (eatWS r1) with
  | none => none
  | some r2 =>
  match seg ')' r2 with
  | none => none
  | some (b, r3) =>
  match eatCh ')' r3 with
  | none => none
  | some r4 => some ("EXTRACT(EPOCH FROM ".data ++ grpKeep b ++ [')'], r4, some ')')

/-- `FROM_UNIXTIME\s*\(\s*([^\)]+)\s*\)  →  to_timestamp(\1)`. -/
def mFromUnix : Matcher := fun _ cs =>
  match eatCI "FROM_UNIXTIME".data cs with
  | none => none
  | some r1 =>
  match eatCh '(' (eatWS r1) with
  | none => none
  | some r2 =>
  match seg ')' r2 with
  | none => none
  | some (b, r3) =>
  match eatCh ')' r3 with
  | none => none
  | some r4 => some ("to_timestamp(".data ++ grpKeep b ++ [')'], r4, some ')')

/-- `\bIFNULL\s*\(  →  COALESCE(`. -/
def mIFNULL : Matcher := fun prev cs =>
  if isWordOpt prev then none else
  match eatCI "IFNULL".data cs with
  | none => none
  | some r1 =>
  match eatCh '(' (eatWS r1) with
  | none => none
  | some r2 => some ("COALESCE(".data, r2, some '(')

/-- `\bIF\s*\(\s*([^,]+)\s*,\s*([^,]+)\s*,\s*([^\)]+)\s*\)` rewritten to
`CASE WHEN c THEN a ELSE b END` with the groups stripped (`_if_to_case`). -/
def mIF : Matcher := fun prev cs =>
  if isWordOpt prev then none else
  match eatCI "IF".data cs with
  | none => none
  | some r1 =>
  match eatCh '(' (eatWS r1) with
  | none => none
  | some r2 =>
  match seg ',' r2 with
  | none => none
  | some (b1, r3) =>
  match eatCh ',' r3 with
  | none => none
  | some r4 =>
  match seg ',' r4 with
  | none => none
  | some (b2, r5) =>
  match eatCh ',' r5 with
  | none => none
  | some r6 =>
  match seg ')' r6 with
  | none => none
  | some (b3, r7) =>
  match eatCh ')' r7 with
  | none => none
  | some r8 =>
    some ("CASE WHEN ".data ++ pyStripL b1 ++ " THEN ".data ++ pyStripL b2 ++
          " ELSE ".data ++ pyStripL b3 ++ " END".data, r8, some ')')

/-- Python-side `_map_datefmt`: sequential `str.replace` of the
`%Y/%y/%m/%d/%H/%h/%i/%s` date-format codes; a single left-to-right pass is
equivalent because no replacement contains `%`. -/
def fmtRep (c : Char) : Option (List Char) :=
  if c = 'Y' then some "YYYY".data
  else if c = 'y' then some "YY".data
  else if c = 'm' then some "MM".data
  else if c = 'd' then some "DD".data
  else if c = 'H' then some "HH24".data
  else if c = 'h' then some "HH12".data
  else if c = 'i' then some "MI".data
  else if c = 's' then some "SS".data
  else none

/-- MySQL-to-Postgres date format code mapping (`_map_datefmt`). -/
def mapFmt : List Char → List Char
  | [] => []
  | [c] => [c]
  | a :: c :: rest =>
    if a = '%' then
      match fmtRep c with
      | some r => r ++ mapFmt rest
      | none => a :: mapFmt (c :: rest)
    else a :: mapFmt (c :: rest)

/-- `DATE_FORMAT\s*\(\s*([^,]+?)\s*,\s*'([^']+)'\s*\)` rewritten to
`to_char(expr, 'mapped')` (`_date_format`). -/
def mDateFormat : Matcher := fun _ cs =>
  match eatCI "DATE_FORMAT".data cs with
  | none => none
  | some r1 =>
  match eatCh '(' (eatWS r1) with
  | none => none
  | some r2 =>
  match seg ',' r2 with
  | none => none
  | some (b1, r3) =>
  match eatCh ',' r3 with
  | none => none
  | some r4 =>
  match eatCh apChar (eatWS r4) with
  | none => none
  | some r5 =>
  match seg apChar r5 with
  | none => none
  | some (fmt, r6) =>
  match eatCh apChar r6 with
  | none => none
  | some r7 =>
  match eatCh ')' (eatWS r7) with
  | none => none
  | some r8 =>
    some ("to_char(".data ++ pyStripL b1 ++ [',', ' ', apChar] ++ mapFmt fmt ++
          [apChar, ')'], r8, some ')')

/-- `STR_TO_DATE\s*\(\s*([^,]+?)\s*,\s*'([^']+)'\s*\)` rewritten to
`to_date(lit, 'mapped')` (`_str_to_date`). -/
def mStrToDate : Matcher := fun _ cs =>
  match eatCI "STR_TO_DATE".data cs with
  | none => none
  | some r1 =>
  match eatCh '(' (eatWS r1) with
  | none => none
  | some r2 =>
  match seg ',' r2 with
  | none => none
  | some (b1, r3) =>
  match eatCh ',' r3 with
  | none => none
  | some r4 =>
  match eatCh apChar (eatWS r4) with
  | none => none
  | some r5 =>
  match seg apChar r5 with
  | none => none
  | some (fmt, r6) =>
  match eatCh apChar r6 with
  | none => none
  | some r7 =>
  match eatCh ')' (eatWS r7) with
  | none => none
  | some r8 =>
    some ("to_date(".data ++ pyStripL b1 ++ [',', ' ', apChar] ++ mapFmt fmt ++
          [apChar, ')'], r8, some ')')

/-- `\bYEAR\s*\(\s*([^\)]+)\s*\)  →  EXTRACT(YEAR FROM \1)`. -/
def mYEAR : Matcher := fun prev cs =>
  if isWordOpt prev then none else
  match eatCI "YEAR".data cs with
  | none => none
  | some r1 =>
  match eatCh '(' (eatWS r1) with
  | none => none
  | some r2 =>
  match seg ')' r2 with
  | none => none
  | some (b, r3) =>
  match eatCh ')' r3 with
  | none => none
  | some r4 => some ("EXTRACT(YEAR FROM ".data ++ grpKeep b ++ [')'], r4, some ')')

/-- `\bMONTH\s*\(\s*([^\)]+)\s*\)  →  EXTRACT(MONTH FROM \1)`. -/
def mMONTH : Matcher := fun prev cs =>
  if isWordOpt prev then none else
  match eatCI "MONTH".data cs with
  | none => none
  | some r1 =>
  match eatCh '(' (eatWS r1) with
  | none => none
  | some r2 =>
  match seg ')' r2 with
  | none => none
  | some (b, r3) =>
  match eatCh ')' r3 with
  | none => none
  | some r4 => some ("EXTRACT(MONTH FROM ".data ++ grpKeep b ++ [')'], r4, some ')')

/-- `\bLIMIT\s+(\d+)\s*,\s*(\d+)  →  LIMIT \2 OFFSET \1`. -/
def mLIMIT : Matcher := fun prev cs =>
  if isWordOpt prev then none else
  match eatCI "LIMIT".data cs with
  | none => none
  | some r1 =>
  match eatWS1 r1 with
  | none => none
  | some r2 =>
  match digits1 r2 with
  | none => none
  | some (d1, r3) =>
  match eatCh ',' (eatWS r3) with
  | none => none
  | some r4 =>
  match digits1 (eatWS r4) with
  | none => none
  | some (d2, r5) =>
    match d2.getLast? with
    | none => none
    | some lc => some ("LIMIT ".data ++ d2 ++ " OFFSET ".data ++ d1, r5, some lc)

/-- The backtick-to-double-quote rewrite (Python `str.replace`). -/
def backtickRule (s : String) : String :=
  ⟨s.data.map (fun c => if c = btChar then qChar else c)⟩

/-- `normalize_sql` from `src/backend/src/mcp_tools/db_server.py` (lines
28-93): the ordered sequence of dialect rewrites. -/
def normalize_sql (s : String) : String :=
  let s1 := backtickRule s
  let s2 := applyRule mCURDATE s1
  let s3 := applyRule (mDateArith "DATE_SUB".data '-') s2
  let s4 := applyRule (mDateArith "DATE_ADD".data '+') s3
  let s5 := applyRule mUnixEmpty s4
  let s6 := applyRule mUnixExpr s5
  let s7 := applyRule mFromUnix s6
  let s8 := applyRule mIFNULL s7
  let s9 := applyRule mIF s8
  let s10 := applyRule mDateFormat s9
  let s11 := applyRule mStrToDate s10
  let s12 := applyRule mYEAR s11
  let s13 := applyRule mMONTH s12
  applyRule mLIMIT s13

/-- The allowed (lower-cased) table names of a chart context, as computed at
`db.py` line 83: names of tables whose `name` is truthy. -/
def allowedTables (ctx : ChartContext) : List String :=
  ctx.tables.filterMap (fun t => if t.name = "" then none else some (toLowerStr t.name))

/-- `enforce_allowlist` from `src/backend/src/app/db.py` (lines 62-124).
The `strict` flag models the `DB_ALLOWLIST_STRICT` environment switch. -/
def enforce_allowlist (sql : String) (ctx : ChartContext) (strict : Bool) :
    Except String Unit :=
  if ctx.tables.isEmpty then .ok () else
  let allowed := allowedTables ctx
  if allowed.isEmpty then .ok () else
  let sl := lowerL sql.data
  if !strict then
    if !(containsL " from ".data (' ' :: (sl ++ [' ']))) then .ok ()
    else if allowed.any (fun t => t != "" && containsL t.data sl) then .ok ()
    else .error "Query must reference at least one allowed table from context"
  else
    let referenced := extractTables sql.data
    if referenced.isEmpty then
      .error "A FROM/JOIN referencing allowed tables is required in strict allowlist mode"
    else
      match referenced.find? (fun t => !(allowed.contains t)) with
      | some t => .error ("Referenced table " ++ apStr ++ t ++ apStr ++ " is not in the allowed context")
      | none => .ok ()

/-! ### Virtual table binder (`db_server.py`, `_inject_virtual_table`) -/

/-- Whether a name fully matches `^query_result(_\d+)?$` (case-sensitive,
as in `re.match` without flags). -/
def isVirtualName (s : String) : Bool :=
  if s = "query_result" then true
  else if startsWithL "query_result_".data s.data then
    let rest := s.data.drop "query_result_".data.length
    !rest.isEmpty && rest.all Char.isDigit
  else false

/-- Whether a maximal word token is matched by the whole-word
case-insensitive token regex `\bquery_result(?:_\d+)?\b`: its lower-casing
must be exactly `query_result` or `query_result_<digits>`. -/
def virtualToken (tok : List Char) : Bool := isVirtualName ⟨lowerL tok⟩

/-- All matches (original text, in order) of `\bquery_result(?:_\d+)?\b`
(case-insensitive) in a character list — the `re.finditer` of the guard and
of the dataset binder's `_ALIAS_RE`. -/
def virtualTokensIn (cs : List Char) : List String :=
  (wordTokens cs).filterMap (fun t => if virtualToken t then some ⟨t⟩ else none)

/-- Whether `\bquery_result(?:_\d+)?\b` matches somewhere (`re.search`). -/
def hasVirtualToken (cs : List Char) : Bool := (wordTokens cs).any virtualToken

/-- Replace every whole-word `query_result(_\d+)?` token by `target`
(the fallback `re.sub` of `_inject_virtual_table`), fuel-indexed. -/
def subTokensAux (target : List Char) : Nat → List Char → List Char
  | 0, cs => cs
  | _ + 1, [] => []
  | fuel + 1, c :: cs =>
    if isWordChar c then
      let tok := c :: cs.takeWhile isWordChar
      let rest := cs.dropWhile isWordChar
      (if virtualToken tok then target else tok) ++ subTokensAux target fuel rest
    else c :: subTokensAux target fuel cs

/-- The backed virtual tables of a context, in context order: name matching
the virtual pattern and truthy `base_sql` (`db_server.py` lines 106-111). -/
def backedVirtuals (ctx : ChartContext) : List (String × String) :=
  ctx.tables.filterMap (fun t =>
    if t.base_sql != "" && isVirtualName t.name then some (t.name, t.base_sql) else none)

/-- The real (truthy-named, non-virtual) tables of a context. -/
def realTables (ctx : ChartContext) : List String :=
  ctx.tables.filterMap (fun t =>
    if t.name != "" && !isVirtualName t.name then some t.name else none)

/-- Join character lists with a separator (Python `",\n".flatten`). -/
def joinSep (sep : List Char) : List (List Char) → List Char
  | [] => []
  | [x] => x
  | x :: y :: rest => x ++ sep ++ joinSep sep (y :: rest)

/-- `_inject_virtual_table` from `src/backend/src/mcp_tools/db_server.py`
(lines 97-130): CTE injection for backed virtuals, else single-real-table
rewrite of `query_result` tokens, else the stripped statement. -/
def inject_virtual_table (sql : String) (ctx : ChartContext) : String :=
  let s := pyStripL sql.data
  let vs := backedVirtuals ctx
  if !vs.isEmpty then
    let pre := joinSep [',', '\n']
      (vs.map (fun ab => ab.1.data ++ " AS (".data ++ ab.2.data ++ [')']))
    if startsWithL "WITH ".data (upperL s) then
      ⟨"WITH ".data ++ pre ++ [',', '\n'] ++ stripLead (s.drop 5)⟩
    else ⟨"WITH ".data ++ pre ++ ['\n'] ++ s⟩
  else if hasVirtualToken s then
    match realTables ctx with
    | [r] => ⟨subTokensAux r.data s.length s⟩
    | _ => ⟨s⟩
  else ⟨s⟩

/-! ### `db_query` missing-virtual guard (`db_server.py` lines 149-182) -/

/-- Lexicographic (code point) order on character lists, as Python string
comparison. -/
def lexLe : List Char → List Char → Bool
  | [], _ => true
  | _ :: _, [] => false
  | a :: as, b :: bs =>
    if a.toNat < b.toNat then true
    else if b.toNat < a.toNat then false
    else lexLe as bs

/-- String order used by Python `sorted`. -/
def strLe (a b : String) : Bool := lexLe a.data b.data

/-- Insert into a sorted list of strings. -/
def insertSorted (x : String) : List String → List String
  | [] => [x]
  | y :: ys => if strLe x y then x :: y :: ys else y :: insertSorted x ys

/-- Ascending sort of strings (Python `sorted`). -/
def sortStr (l : List String) : List String := l.foldr insertSorted []

/-- Names of context tables that are backed virtuals (the
`available_virtuals` set builder of `db_query`). -/
def availableVirtualNames (ctx : ChartContext) : List String :=
  ctx.tables.filterMap (fun t =>
    if t.name != "" && isVirtualName t.name && t.base_sql != "" then some t.name else none)

/-- The structured error payload returned by `db_query` when unbacked
virtual tables are referenced. -/
structure MissingCtxErr where
  error : String
  missingVirtuals : List String
  availableVirtuals : List String
  hint : String
  sql : String
deriving DecidableEq

/-- Result of the `db_query` pipeline up to the missing-virtual guard:
either the structured error (no read-only check, no allowlist check, no
database hit), or the injected SQL handed on to `enforce_readonly`,
`enforce_allowlist` and the executor. -/
inductive DbQueryOutcome where
  | missingCtx (e : MissingCtxErr)
  | proceed (injectedSql : String)
deriving DecidableEq

/-- The hint text of the missing-virtual error (`db_server.py` line 173). -/
def missingHint : String :=
  "When only a single table is available, avoid referencing query_result_2; use single-table techniques (self-join or conditional aggregation) or request additional context."

/-- The lower-cased deduplicated backed-virtual names of a context (the
`avail_norm` set of `db_query`). -/
def availNorm (ctx : ChartContext) : List String :=
  dedupStr ((availableVirtualNames ctx).map toLowerStr)

/-- The lower-cased deduplicated virtual aliases referenced in a SQL string
(the `used_norm` set of `db_query`). -/
def usedVirtualsNorm (s : String) : List String :=
  dedupStr ((virtualTokensIn s.data).map toLowerStr)

/-- The sorted referenced-but-unbacked virtual aliases (the `missing` list
of `db_query`). -/
def missingVirtualsOf (s : String) (ctx : ChartContext) : List String :=
  sortStr ((usedVirtualsNorm s).filter (fun u => !((availNorm ctx).contains u)))

/-- `db_query` from `src/backend/src/mcp_tools/db_server.py` (lines
149-182), modelled up to the point where control leaves this module:
normalize, inject, then the missing-virtual guard. -/
def db_query (sql : String) (ctx : ChartContext) : DbQueryOutcome :=
  let injected := inject_virtual_table (normalize_sql sql) ctx
  let missing := missingVirtualsOf injected ctx
  if !missing.isEmpty && (realTables ctx).length != 1 then
    .missingCtx ⟨"Missing virtual tables in chartContext", missing, sortStr (availNorm ctx),
      missingHint, injected⟩
  else .proceed injected

/-! ### Chart-spec validator (`db_server.py`, `plot_render`, lines 185-245) -/

/-- An encoding channel value: a bare string, a dict carrying optional
`field`/`channel` entries, or something else (ignored). -/
inductive FieldVal where
  | fstr (s : String)
  | fobj (field : Option String) (channel : Option String)
  | fnone
deriving DecidableEq

/-- `extract_field`: a string is itself; a dict yields
`v.get("field") or v.get("channel")` with Python truthiness. -/
def extract_field : FieldVal → Option String
  | .fstr s => some s
  | .fobj f c => match f with
    | some x => if x != "" then some x else c
    | none => c
  | .fnone => none

/-- A chart spec as consumed by the validator: a mark and an encoding map
(channel name to field value, insertion-ordered, unique keys). -/
structure RenderSpec where
  mark : Option String
  encoding : List (String × FieldVal)
deriving DecidableEq

/-- The case-folded union of all context columns. -/
def allowedColumnsUnion (ctx : ChartContext) : List String :=
  ctx.tables.foldr (fun t acc => t.columns.map toLowerStr ++ acc) []

/-- Per-alias column sets: Python dict comprehension keyed by truthy table
name, so a duplicated name resolves to the **last** table bearing it. -/
def allowedByAlias (ctx : ChartContext) (aName : String) : Option (List String) :=
  ((ctx.tables.filter (fun t => t.name != "" && t.name == aName)).getLast?).map
    (fun t => t.columns.map toLowerStr)

/-- `check_field`: the issues (zero or one) contributed by one channel. -/
def checkFieldIssues (ctx : ChartContext) (chName : String) (v : FieldVal) : List String :=
  match extract_field v with
  | none => []
  | some f =>
    if f = "" then [] else
    if f.data.any (· = '.') then
      let aName : String := ⟨f.data.takeWhile (· ≠ '.')⟩
      let col : String := ⟨(f.data.dropWhile (· ≠ '.')).drop 1⟩
      match allowedByAlias ctx aName with
      | none => ["Field not in context: " ++ f ++ " (encoding." ++ chName ++ ")"]
      | some cols =>
        if cols.contains (toLowerStr col) then []
        else ["Field not in context: " ++ f ++ " (encoding." ++ chName ++ ")"]
    else
      if (allowedColumnsUnion ctx).contains (toLowerStr f) then []
      else ["Field not in context: " ++ f ++ " (encoding." ++ chName ++ ")"]

/-- The truthy field referenced by a channel value, if any (what
`check_field` adds to `used_fields`). -/
def usedFieldOf (v : FieldVal) : Option String :=
  match extract_field v with
  | some f => if f = "" then none else some f
  | none => none

/-- Issues from the loop over all encoding channels. -/
def generalIssues (ctx : ChartContext) (enc : List (String × FieldVal)) : List String :=
  (enc.map (fun kv => checkFieldIssues ctx kv.1 kv.2)).flatten

/-- The five channels required for a candlestick mark. -/
def candleKeys : List String := ["x", "open", "high", "low", "close"]

/-- Dict lookup in the encoding map. -/
def lookupEnc (enc : List (String × FieldVal)) (k : String) : Option FieldVal :=
  (enc.find? (fun kv => kv.1 == k)).map (·.2)

/-- Whether the mark is the string `candlestick`, case-insensitively. -/
def markIsCandle : Option String → Bool
  | some s => toLowerStr s == "candlestick"
  | none => false

/-- Issues from the candlestick special case. -/
def candleIssues (ctx : ChartContext) (spec : RenderSpec) : List String :=
  if markIsCandle spec.mark then
    (candleKeys.map (fun k =>
      match lookupEnc spec.encoding k with
      | none => ["Missing encoding." ++ k ++ " for candlestick"]
      | some v => checkFieldIssues ctx k v)).flatten
  else []

/-- The validation result returned by `plot_render`. -/
structure ValidationResult where
  ok : Bool
  issues : List String
  allowedColumns : List String
  allowedAliases : List String
  referencedFields : List String
deriving DecidableEq

/-- `plot_render` from `src/backend/src/mcp_tools/db_server.py` (lines
185-245): pure validation of a chart spec against the context columns;
always returns a result, never raises. -/
def plot_render (spec : RenderSpec) (ctx : ChartContext) : ValidationResult :=
  let issues := generalIssues ctx spec.encoding ++ candleIssues ctx spec
  let used := (spec.encoding.filterMap (fun kv => usedFieldOf kv.2)) ++
    (if markIsCandle spec.mark then
      candleKeys.filterMap (fun k => (lookupEnc spec.encoding k).bind usedFieldOf)
    else [])
  { ok := issues.isEmpty
    issues := issues
    allowedColumns := sortStr (dedupStr (allowedColumnsUnion ctx))
    allowedAliases := sortStr (dedupStr (ctx.tables.filterMap
      (fun t => if t.name != "" then some t.name else none)))
    referencedFields := sortStr (dedupStr used) }

/-! ### Dataset binder (`agent.py`, `_build_datasets_from_prior_queries`,
lines 185-221).  Rows are kept abstract in the row type `α`. -/

/-- One prior `db_query` call as recorded by the orchestrator: the three SQL
variants (with `none`/empty modelling falsy values) and the rows of its
result, when the result was a dict with a `rows` list. -/
structure QueryRecord (α : Type) where
  sql : Option String
  normalized_sql : Option String
  injected_sql : Option String
  rows : Option (List α)

/-- Python `a or b` on an optional string (both `None` and `""` fall
through). -/
def orStr (a : Option String) (b : String) : String :=
  match a with
  | some s => if s != "" then s else b
  | none => b

/-- The SQL text scanned for aliases:
`q.get('injected_sql') or q.get('normalized_sql') or q.get('sql') or ""`. -/
def sqlTextOf {α : Type} (q : QueryRecord α) : String :=
  orStr q.injected_sql (orStr q.normalized_sql (orStr q.sql ""))

/-- Dict lookup in an insertion-ordered dataset map. -/
def dsLookup {α : Type} (ds : List (String × List α)) (k : String) : Option (List α) :=
  (ds.find? (fun kv => kv.1 == k)).map (·.2)

/-- `if k not in ds: ds[k] = v` (first binding wins). -/
def dsAddIfAbsent {α : Type} (ds : List (String × List α)) (k : String) (v : List α) :
    List (String × List α) :=
  if (dsLookup ds k).isSome then ds else ds ++ [(k, v)]

/-- `ds[k] = v` with Python dict semantics (replace in place or append). -/
def dsInsertReplace {α : Type} (ds : List (String × List α)) (k : String) (v : List α) :
    List (String × List α) :=
  if (dsLookup ds k).isSome then ds.map (fun kv => if kv.1 == k then (k, v) else kv)
  else ds ++ [(k, v)]

/-- Processing of one prior query record (one iteration of the
most-recent-first loop). -/
def accumStep {α : Type} (ds : List (String × List α)) (q : QueryRecord α) :
    List (String × List α) :=
  match q.rows with
  | none => ds
  | some rows =>
    if (dedupStr (virtualTokensIn (sqlTextOf q).data)).isEmpty then
      dsAddIfAbsent ds "query_result" rows
    else (dedupStr (virtualTokensIn (sqlTextOf q).data)).foldl
      (fun acc a => dsAddIfAbsent acc a rows) ds

/-- The alias-to-rows map accumulated over all prior queries, scanned most
recent first. -/
def accumAll {α : Type} (prior : List (QueryRecord α)) : List (String × List α) :=
  prior.reverse.foldl accumStep []

/-- One step of the referenced-name filter (one iteration of the
`for n in referenced_names` loop). -/
def filterStep {α : Type} (ds : List (String × List α)) (acc : List (String × List α))
    (n : String) : List (String × List α) :=
  match dsLookup ds n with
  | some r => dsInsertReplace acc n r
  | none =>
    if toLowerStr n == "query_result" then
      match dsLookup ds "query_result" with
      | some r => dsInsertReplace acc "query_result" r
      | none => acc
    else acc

/-- The filter applied when the spec referenced a non-empty name set, with
the case-insensitive `query_result` fallback. -/
def filterRefd {α : Type} (referenced : List String) (ds : List (String × List α)) :
    List (String × List α) :=
  referenced.foldl (filterStep ds) []

/-- `_build_datasets_from_prior_queries` from `src/backend/src/app/agent.py`
(lines 187-221). -/
def build_datasets {α : Type} (referenced : List String) (prior : List (QueryRecord α)) :
    List (String × List α) :=
  if prior.isEmpty then [] else
  let ds := accumAll prior
  if referenced.isEmpty then ds else filterRefd referenced ds

/-! ### Streaming orchestrator event flow (`agent.py`, `run_agent_stream`,
lines 641-802).  The collaborating model client is abstracted into: whether
a client is configured, the tool rounds it requests (each tool call giving a
serialized result string), the token deltas of the final streamed
completion, and an optional mid-stream error. -/

/-- The events yielded by `run_agent_stream`. -/
inductive StreamEvent where
  | toolCallStarted (tool : String)
  | toolChunk (tool delta : String)
  | toolResult (tool : String)
  | chunk (delta : String)
  | done (answer : String)
  | errEvent (msg : String)
deriving DecidableEq

/-- The fixed degraded-response pieces yielded when no client is
configured (`agent.py` lines 653-657). -/
def fallbackPieces : List String :=
  ["AI agent is not available.",
   " Please configure your AI providers in the backend ",
   "environment to enable streaming responses."]

/-- Slice a serialized tool result into pieces of at most 2048 characters
(`agent.py` line 745), fuel-indexed. -/
def chunkSlicesAux : Nat → List Char → List (List Char)
  | 0, _ => []
  | _ + 1, [] => []
  | fuel + 1, c :: cs => (c :: cs).take 2048 :: chunkSlicesAux fuel ((c :: cs).drop 2048)

/-- The 2048-character slices of a tool result string. -/
def chunkSlices (s : String) : List String :=
  (chunkSlicesAux s.data.length s.data).map (fun cs => ⟨cs⟩)

/-- The events emitted for one tool call: start, result slices, result. -/
def toolCallEvents (tool resultStr : String) : List StreamEvent :=
  .toolCallStarted tool :: ((chunkSlices resultStr).map (.toolChunk tool) ++ [.toolResult tool])

/-- The events of one tool round. -/
def roundEvents (round : List (String × String)) : List StreamEvent :=
  (round.map (fun tc => toolCallEvents tc.1 tc.2)).flatten

/-- The final token-streaming phase: falsy deltas are skipped, each truthy
delta is accumulated and yielded as a `chunk`; a mid-stream error ends the
run with a single `error` event and **no** `done`, otherwise a single
`done` carries the accumulated answer. -/
def streamTail : List (Option String) → String → Option String → List StreamEvent
  | [], assembled, errOpt =>
    match errOpt with
    | some e => [.errEvent e]
    | none => [.done assembled]
  | d :: ds, assembled, errOpt =>
    match d with
    | none => streamTail ds assembled errOpt
    | some t =>
      if t = "" then streamTail ds assembled errOpt
      else .chunk t :: streamTail ds (assembled ++ t) errOpt

/-- `run_agent_stream` event flow: fallback path when no client is
configured, else tool rounds followed by the token stream. -/
def run_agent_stream (configured : Bool) (rounds : List (List (String × String)))
    (tokens : List (Option String)) (streamErr : Option String) : List StreamEvent :=
  if !configured then
    (fallbackPieces.map .chunk) ++ [.done (String.join fallbackPieces)]
  else
    (rounds.map roundEvents).flatten ++ streamTail tokens "" streamErr

/-- Concatenation of the `delta` fields of all `chunk`-type events. -/
def chunkConcat : List StreamEvent → String
  | [] => ""
  | .chunk d :: rest => d ++ chunkConcat rest
  | _ :: rest => chunkConcat rest

/-! ### Shared concrete fixtures -/

/-- A context with the single real table `prices(close)`. -/
def ctxPricesClose : ChartContext := ⟨[⟨"prices", ["close"], ""⟩]⟩

/-- A context with the single real table `prices(symbol, close)`. -/
def ctxPrices : ChartContext := ⟨[⟨"prices", ["symbol", "close"], ""⟩]⟩

/-! ### Supporting lemmas -/

/-- In relaxed mode, `enforce_allowlist` accepts outright whenever the
padded lower-cased SQL does not contain the exact substring
`" from "`. -/
theorem allowlist_relaxed_skip (sql : String) (ctx : ChartContext)
    (h : containsL " from ".data (' ' :: (lowerL sql.data ++ [' '])) = false) :
    exceptOk (enforce_allowlist sql ctx false) = true := by
  unfold enforce_allowlist
  by_cases h1 : ctx.tables.isEmpty
  · simp [h1, exceptOk]
  · by_cases h2 : (allowedTables ctx).isEmpty
    · simp [h1, h2, exceptOk]
    · simp [h1, h2, h, exceptOk]

/-- `enforce_readonly` rejects whenever a banned keyword occurs as a whole
word of the upper-cased stripped SQL, in either mode. -/
theorem readonly_banned_rejects (s : String) (m : Bool)
    (h : bannedPresent (upperL (pyStripL s.data)) = true) :
    exceptOk (enforce_readonly s m) = false := by
  unfold enforce_readonly
  by_cases h0 : s = ""
  · simp [h0, exceptOk]
  · simp [h0, h, exceptOk]

/-- A whole-word `DROP` token makes `bannedPresent` true. -/
theorem drop_token_banned (cs : List Char)
    (h : "DROP".data ∈ wordTokens cs) : bannedPresent cs = true := by
  unfold bannedPresent
  rw [List.any_eq_true]
  exact ⟨"DROP".data, h, by decide⟩

/-- Relaxed-mode acceptance of `enforce_readonly`: no banned word plus an
accepted leading keyword (or a `SELECT` anywhere) is accepted. -/
theorem readonly_relaxed_accepts (s : String)
    (hb : bannedPresent (upperL (pyStripL s.data)) = false)
    (hp : (startsWithL "SELECT".data (upperL (pyStripL s.data)) ||
           startsWithL "WITH".data (upperL (pyStripL s.data)) ||
           startsWithL "EXPLAIN".data (upperL (pyStripL s.data)) ||
           startsWithL "VALUES".data (upperL (pyStripL s.data)) ||
           startsWithL "(".data (upperL (pyStripL s.data)) ||
           containsL "SELECT".data (upperL (pyStripL s.data))) = true) :
    exceptOk (enforce_readonly s false) = true := by
  by_cases h0 : s = ""
  · subst h0; exact absurd hp (by decide)
  · unfold enforce_readonly
    simp only [h0, if_false, hb, Bool.false_eq_true, Bool.if_false_left]
    simp only [Bool.or_eq_true] at hp
    rcases hp with ((((h | h) | h) | h) | h) | h <;>
      simp [h, exceptOk]

/-- Strict-mode acceptance of `enforce_readonly` happens only for
statements starting (after strip and upper-case) with `SELECT`, `WITH` or
`(`. -/
theorem readonly_strict_only (s : String)
    (h : exceptOk (enforce_readonly s true) = true) :
    (startsWithL "SELECT".data (upperL (pyStripL s.data)) ||
     startsWithL "WITH".data (upperL (pyStripL s.data)) ||
     startsWithL "(".data (upperL (pyStripL s.data))) = true := by
  unfold enforce_readonly at h
  by_cases h0 : s = ""
  · simp [h0, exceptOk] at h
  · simp only [h0, if_false] at h
    cases hb : bannedPresent (upperL (pyStripL s.data)) with
    | true => rw [hb] at h; simp [exceptOk] at h
    | false =>
      rw [hb] at h
      simp only [Bool.false_eq_true, if_false, if_true] at h
      cases hsemi : (dropTrailSemis (pyStripL (upperL (pyStripL s.data)))).any (· = ';') with
      | true => rw [hsemi] at h; simp [exceptOk] at h
      | false =>
        rw [hsemi] at h
        simp only [Bool.false_eq_true, if_false] at h
        cases hpar : startsWithL "(".data (upperL (pyStripL s.data)) with
        | true => simp [hpar]
        | false =>
          rw [hpar] at h
          simp only [Bool.false_eq_true, if_false] at h
          cases hsw : (startsWithL "SELECT".data (upperL (pyStripL s.data)) ||
              startsWithL "WITH".data (upperL (pyStripL s.data))) with
          | true =>
            simp only [Bool.or_eq_true] at hsw ⊢
            tauto
          | false => rw [hsw] at h; simp [exceptOk] at h

/-- Inserting into a sorted list never yields the empty list. -/
theorem insertSorted_ne_nil (x : String) (l : List String) :
    insertSorted x l ≠ [] := by
  cases l with
  | nil => simp [insertSorted]
  | cons y ys =>
    unfold insertSorted
    split <;> simp

/-- Sorting preserves emptiness. -/
theorem sortStr_isEmpty (l : List String) : (sortStr l).isEmpty = l.isEmpty := by
  cases l with
  | nil => rfl
  | cons x xs =>
    have h := insertSorted_ne_nil x (sortStr xs)
    have hs : sortStr (x :: xs) = insertSorted x (sortStr xs) := rfl
    rw [hs]
    rcases hi : insertSorted x (sortStr xs) with _ | ⟨a, t⟩
    · exact absurd hi h
    · rfl

/-- A context with a truthy-named table has a nonempty table list. -/
theorem allowed_nonempty_tables (ctx : ChartContext)
    (h : (allowedTables ctx).isEmpty = false) : ctx.tables.isEmpty = false := by
  rcases hc : ctx.tables with _ | ⟨a, t⟩
  · exfalso
    unfold allowedTables at h
    rw [hc] at h
    simp at h
  · rfl

/-- Relaxed-mode table check of `enforce_allowlist`, characterized: when the
padded lower-cased SQL contains `" from "`, acceptance is equivalent to some
allowed table name occurring as a substring of the lower-cased SQL. -/
theorem allowlist_relaxed_check (sql : String) (ctx : ChartContext)
    (ha : (allowedTables ctx).isEmpty = false)
    (hf : containsL " from ".data (' ' :: (lowerL sql.data ++ [' '])) = true) :
    exceptOk (enforce_allowlist sql ctx false) = true ↔
      (allowedTables ctx).any (fun t => t != "" && containsL t.data (lowerL sql.data)) = true := by
  have ht := allowed_nonempty_tables ctx ha
  unfold enforce_allowlist
  cases hb : (allowedTables ctx).any (fun t => t != "" && containsL t.data (lowerL sql.data)) with
  | true => simp [ht, ha, hf, hb, exceptOk]
  | false => simp [ht, ha, hf, hb, exceptOk]

/-- Strict-mode check of `enforce_allowlist`, characterized: with a
non-empty allowed set, acceptance is equivalent to the FROM/JOIN identifier
list being non-empty and wholly contained in the allowed set. -/
theorem allowlist_strict_check (sql : String) (ctx : ChartContext)
    (ha : (allowedTables ctx).isEmpty = false) :
    exceptOk (enforce_allowlist sql ctx true) = true ↔
      ((extractTables sql.data).isEmpty = false ∧
       ∀ t ∈ extractTables sql.data, t ∈ allowedTables ctx) := by
  have ht := allowed_nonempty_tables ctx ha
  cases hre : (extractTables sql.data).isEmpty with
  | true =>
    constructor
    · intro h
      exfalso
      simp [enforce_allowlist, ht, ha, hre, exceptOk] at h
    · rintro ⟨hfalse, -⟩
      exact absurd hfalse (by decide)
  | false =>
    cases hfind : (extractTables sql.data).find? (fun t => !((allowedTables ctx).contains t)) with
    | some t =>
      have hmem := List.mem_of_find?_eq_some hfind
      have hprop := List.find?_some hfind
      have hnot : t ∉ allowedTables ctx := by simpa using hprop
      constructor
      · intro h
        exfalso
        simp [enforce_allowlist, ht, ha, hre, hfind, exceptOk, -List.elem_eq_mem] at h
      · rintro ⟨-, hall⟩
        exact absurd (hall t hmem) hnot
    | none =>
      have hall : ∀ t ∈ extractTables sql.data, t ∈ allowedTables ctx := by
        intro t htm
        have := List.find?_eq_none.mp hfind t htm
        simpa using this
      constructor
      · intro _
        exact ⟨rfl, hall⟩
      · intro _
        simp [enforce_allowlist, ht, ha, hre, hfind, exceptOk, -List.elem_eq_mem]

/-- `find?` over an append when the left part already finds something. -/
theorem find?_append_left {γ : Type} (p : γ → Bool) {l1 : List γ} (l2 : List γ) {x : γ}
    (h : l1.find? p = some x) : (l1 ++ l2).find? p = some x := by
  induction l1 with
  | nil => simp [List.find?] at h
  | cons a t ih =>
    cases hp : p a with
    | true =>
      rw [List.find?_cons_of_pos _ hp] at h
      rw [List.cons_append, List.find?_cons_of_pos _ hp]
      exact h
    | false =>
      rw [List.find?_cons_of_neg _ (by simp [hp])] at h
      rw [List.cons_append, List.find?_cons_of_neg _ (by simp [hp])]
      exact ih h

/-- `find?` over an append when the left part finds nothing. -/
theorem find?_append_right {γ : Type} (p : γ → Bool) {l1 : List γ} (l2 : List γ)
    (h : l1.find? p = none) : (l1 ++ l2).find? p = l2.find? p := by
  induction l1 with
  | nil => simp
  | cons a t ih =>
    cases hp : p a with
    | true => rw [List.find?_cons_of_pos _ hp] at h; cases h
    | false =>
      rw [List.find?_cons_of_neg _ (by simp [hp])] at h
      rw [List.cons_append, List.find?_cons_of_neg _ (by simp [hp])]
      exact ih h

/-- A present binding survives `dsAddIfAbsent`. -/
theorem dsLookup_addIfAbsent_preserve {α : Type} (ds : List (String × List α))
    (k2 : String) (v2 : List α) (k : String) (v : List α)
    (h : dsLookup ds k = some v) : dsLookup (dsAddIfAbsent ds k2 v2) k = some v := by
  unfold dsAddIfAbsent
  split
  · exact h
  · unfold dsLookup at h ⊢
    rcases hf : ds.find? (fun kv => kv.1 == k) with _ | kv
    · rw [hf] at h; cases h
    · rw [hf] at h
      rw [find?_append_left _ _ hf]
      exact h

/-- An absent binding for a different key stays absent under
`dsAddIfAbsent`. -/
theorem dsLookup_addIfAbsent_none {α : Type} (ds : List (String × List α))
    (k2 : String) (v2 : List α) (k : String) (hk : k ≠ k2)
    (h : dsLookup ds k = none) : dsLookup (dsAddIfAbsent ds k2 v2) k = none := by
  unfold dsAddIfAbsent
  split
  · exact h
  · unfold dsLookup at h ⊢
    rcases hf : ds.find? (fun kv => kv.1 == k) with _ | kv
    · rw [find?_append_right _ _ hf]
      simp [Ne.symm hk]
    · rw [hf] at h; cases h

/-- A present binding survives the alias-binding fold. -/
theorem dsLookup_foldlAdd_preserve {α : Type} (l : List String) (rows : List α) :
    ∀ (ds : List (String × List α)) (k : String) (v : List α),
      dsLookup ds k = some v →
      dsLookup (l.foldl (fun acc a => dsAddIfAbsent acc a rows) ds) k = some v := by
  induction l with
  | nil => intro ds k v h; exact h
  | cons a t ih =>
    intro ds k v h
    exact ih _ _ _ (dsLookup_addIfAbsent_preserve _ _ _ _ _ h)

/-- The alias-binding fold binds an unbound listed alias to the rows. -/
theorem dsLookup_foldlAdd_binds {α : Type} (rows : List α) (a : String) :
    ∀ (l : List String) (ds : List (String × List α)), a ∈ l → dsLookup ds a = none →
      dsLookup (l.foldl (fun acc x => dsAddIfAbsent acc x rows) ds) a = some rows := by
  intro l
  induction l with
  | nil => intro ds h; cases h
  | cons x t ih =>
    intro ds hmem hnone
    by_cases hax : a = x
    · subst hax
      have h1 : dsLookup (dsAddIfAbsent ds a rows) a = some rows := by
        unfold dsAddIfAbsent
        rw [if_neg (by simp [hnone])]
        unfold dsLookup at hnone ⊢
        rcases hf : ds.find? (fun kv => kv.1 == a) with _ | kv
        · rw [find?_append_right _ _ hf]
          simp
        · rw [hf] at hnone; cases hnone
      exact dsLookup_foldlAdd_preserve t rows _ _ _ h1
    · rcases List.mem_cons.mp hmem with h | h
      · exact absurd h hax
      · exact ih _ h (dsLookup_addIfAbsent_none ds x rows a hax hnone)

/-- `find?` by key on a cons whose head key matches. -/
theorem find?_key_cons_hit {α : Type} (kv : String × List α) (t : List (String × List α))
    (k : String) (h : (kv.1 == k) = true) :
    List.find? (fun kv0 => kv0.1 == k) (kv :: t) = some kv := by
  simp [List.find?, h]

/-- `find?` by key on a cons whose head key differs. -/
theorem find?_key_cons_miss {α : Type} (kv : String × List α) (t : List (String × List α))
    (k : String) (h : (kv.1 == k) = false) :
    List.find? (fun kv0 => kv0.1 == k) (kv :: t) = List.find? (fun kv0 => kv0.1 == k) t := by
  simp [List.find?, h]

/-- `dsLookup` on a cons whose head key matches. -/
theorem dsLookup_cons_hit {α : Type} (kv : String × List α) (t : List (String × List α))
    (k : String) (h : (kv.1 == k) = true) : dsLookup (kv :: t) k = some kv.2 := by
  unfold dsLookup
  rw [find?_key_cons_hit _ _ _ h]
  rfl

/-- `dsLookup` on a cons whose head key differs. -/
theorem dsLookup_cons_miss {α : Type} (kv : String × List α) (t : List (String × List α))
    (k : String) (h : (kv.1 == k) = false) : dsLookup (kv :: t) k = dsLookup t k := by
  unfold dsLookup
  rw [find?_key_cons_miss _ _ _ h]

/-- A present binding survives one record-processing step. -/
theorem accumStep_preserve {α : Type} (q : QueryRecord α) (ds : List (String × List α))
    (k : String) (v : List α) (h : dsLookup ds k = some v) :
    dsLookup (accumStep ds q) k = some v := by
  unfold accumStep
  cases hq : q.rows with
  | none => exact h
  | some rows =>
    dsimp only
    by_cases hal : (dedupStr (virtualTokensIn (sqlTextOf q).data)).isEmpty = true
    · rw [if_pos hal]
      exact dsLookup_addIfAbsent_preserve _ _ _ _ _ h
    · rw [if_neg hal]
      exact dsLookup_foldlAdd_preserve _ _ _ _ _ h

/-- A present binding survives folding record-processing steps. -/
theorem foldl_accumStep_preserve {α : Type} (qs : List (QueryRecord α)) :
    ∀ (ds : List (String × List α)) (k : String) (v : List α),
      dsLookup ds k = some v → dsLookup (qs.foldl accumStep ds) k = some v := by
  induction qs with
  | nil => intro ds k v h; exact h
  | cons q t ih => intro ds k v h; exact ih _ _ _ (accumStep_preserve q ds k v h)

/-- `dsInsertReplace` binds its own key to its value. -/
theorem dsLookup_insertReplace_self {α : Type} :
    ∀ (ds : List (String × List α)) (k : String) (v : List α),
      dsLookup (dsInsertReplace ds k v) k = some v := by
  intro ds k v
  induction ds with
  | nil =>
    unfold dsInsertReplace dsLookup
    simp [List.find?]
  | cons kv t ih =>
    cases ha : kv.1 == k with
    | true =>
      have hsome : (dsLookup (kv :: t) k).isSome = true := by
        rw [dsLookup_cons_hit kv t k ha]
        rfl
      unfold dsInsertReplace
      rw [if_pos hsome]
      simp only [List.map_cons]
      rw [if_pos ha]
      exact dsLookup_cons_hit (k, v) _ k (by simp)
    | false =>
      have hl : dsLookup (kv :: t) k = dsLookup t k := dsLookup_cons_miss kv t k ha
      unfold dsInsertReplace at ih ⊢
      by_cases hs : (dsLookup t k).isSome = true
      · rw [if_pos (by rw [hl]; exact hs)]
        simp only [List.map_cons]
        rw [if_neg (by simp [ha])]
        rw [if_pos hs] at ih
        rw [dsLookup_cons_miss _ _ _ ha]
        exact ih
      · rw [if_neg (by rw [hl]; exact hs), List.cons_append]
        rw [if_neg hs] at ih
        rw [dsLookup_cons_miss _ _ _ ha]
        exact ih

/-- The key-replacing map of `dsInsertReplace` does not affect `find?` for
another key. -/
theorem find?_map_insert_other {α : Type} (k n : String) (hk : n ≠ k) (v : List α) :
    ∀ t : List (String × List α),
      (t.map (fun kv => if kv.1 == k then (k, v) else kv)).find? (fun kv => kv.1 == n)
        = t.find? (fun kv => kv.1 == n) := by
  intro t
  induction t with
  | nil => rfl
  | cons kv2 t2 ih2 =>
    cases hb : kv2.1 == k with
    | true =>
      have hkv2 : kv2.1 = k := by simpa using hb
      simp only [List.map_cons]
      rw [if_pos hb]
      rw [find?_key_cons_miss _ _ _ (by simp [Ne.symm hk])]
      rw [find?_key_cons_miss _ _ _ (by simp [hkv2, Ne.symm hk])]
      exact ih2
    | false =>
      simp only [List.map_cons]
      rw [if_neg (by simp [hb])]
      cases hc : kv2.1 == n with
      | true =>
        rw [find?_key_cons_hit _ _ _ hc, find?_key_cons_hit _ _ _ hc]
      | false =>
        rw [find?_key_cons_miss _ _ _ hc, find?_key_cons_miss _ _ _ hc]
        exact ih2

/-- `dsInsertReplace` leaves other keys unchanged. -/
theorem dsLookup_insertReplace_other {α : Type} (k n : String) (hk : n ≠ k)
    (ds : List (String × List α)) (v : List α) :
    dsLookup (dsInsertReplace ds k v) n = dsLookup ds n := by
  unfold dsInsertReplace
  by_cases hs : (dsLookup ds k).isSome = true
  · rw [if_pos hs]
    unfold dsLookup
    rw [find?_map_insert_other k n hk v ds]
  · rw [if_neg hs]
    unfold dsLookup
    rcases hf : ds.find? (fun kv => kv.1 == n) with _ | kv
    · rw [find?_append_right _ _ hf]
      have hkn : (k == n) = false := by simp [Ne.symm hk]
      simp [List.find?, hkn, hf]
    · rw [find?_append_left _ _ hf]
      rw [hf]

/-- Members of `dsInsertReplace` come from the original list or are the
inserted pair. -/
theorem dsInsertReplace_mem {α : Type} (ds : List (String × List α)) (k : String)
    (v : List α) (kv : String × List α) (h : kv ∈ dsInsertReplace ds k v) :
    kv ∈ ds ∨ kv = (k, v) := by
  unfold dsInsertReplace at h
  split at h
  · rcases List.mem_map.mp h with ⟨kv2, hm, heq⟩
    by_cases hb : kv2.1 == k
    · rw [if_pos hb] at heq
      right
      exact heq.symm
    · rw [if_neg hb] at heq
      left
      exact heq ▸ hm
  · rcases List.mem_append.mp h with hm | hm
    · left; exact hm
    · right; simpa using hm

/-- A binding coming from `ds` survives the whole referenced-name filter
fold, whether already placed in the accumulator or still to be visited. -/
theorem filterRefd_aux {α : Type} (ds : List (String × List α)) (n : String) (rows : List α)
    (hds : dsLookup ds n = some rows) :
    ∀ (referenced : List String) (acc : List (String × List α)),
      (dsLookup acc n = some rows ∨ n ∈ referenced) →
      dsLookup (referenced.foldl (filterStep ds) acc) n = some rows := by
  intro referenced
  induction referenced with
  | nil =>
    intro acc h
    rcases h with h | h
    · exact h
    · cases h
  | cons m rest ih =>
    intro acc h
    simp only [List.foldl_cons]
    by_cases hnm : n = m
    · subst hnm
      have hstep : filterStep ds acc n = dsInsertReplace acc n rows := by
        unfold filterStep
        rw [hds]
      rw [hstep]
      exact ih _ (Or.inl (dsLookup_insertReplace_self _ _ _))
    · rcases h with h | h
      · have hpres : dsLookup (filterStep ds acc m) n = some rows := by
          unfold filterStep
          rcases hm : dsLookup ds m with _ | r
          · by_cases hq : (toLowerStr m == "query_result") = true
            · rw [if_pos hq]
              rcases hqr : dsLookup ds "query_result" with _ | r2
              · exact h
              · by_cases hnq : n = "query_result"
                · subst hnq
                  have hrr : r2 = rows := by
                    rw [hds] at hqr
                    injection hqr with h2
                    exact h2.symm
                  rw [hrr, dsLookup_insertReplace_self]
                · rw [dsLookup_insertReplace_other _ _ hnq _ _]
                  exact h
            · rw [if_neg hq]
              exact h
          · rw [dsLookup_insertReplace_other _ _ hnm _ _]
            exact h
        exact ih _ (Or.inl hpres)
      · rcases List.mem_cons.mp h with he | he
        · exact absurd he hnm
        · exact ih _ (Or.inr he)

/-- A referenced name bound in the accumulated map stays bound, with the
same rows, in the filtered map. -/
theorem filterRefd_binds {α : Type} (ds : List (String × List α))
    (referenced : List String) (n : String) (rows : List α)
    (hmem : n ∈ referenced) (hds : dsLookup ds n = some rows) :
    dsLookup (filterRefd referenced ds) n = some rows :=
  filterRefd_aux ds n rows hds referenced [] (Or.inr hmem)

/-- Where an entry of the filtered map can come from: a referenced name
bound in `ds`, or the `query_result` fallback for a referenced name whose
lower-casing is `query_result`. -/
def filterOrigin {α : Type} (ds : List (String × List α)) (referenced : List String)
    (kv : String × List α) : Prop :=
  (kv.1 ∈ referenced ∧ dsLookup ds kv.1 = some kv.2) ∨
  (kv.1 = "query_result" ∧ dsLookup ds "query_result" = some kv.2 ∧
    ∃ m ∈ referenced, toLowerStr m = "query_result")

/-- Fold invariant: every entry of the accumulator has a legitimate
origin. -/
theorem filterRefd_mem_aux {α : Type} (ds : List (String × List α))
    (referenced : List String) :
    ∀ (rest : List String) (acc : List (String × List α)),
      (∀ m ∈ rest, m ∈ referenced) →
      (∀ kv ∈ acc, filterOrigin ds referenced kv) →
      ∀ kv ∈ rest.foldl (filterStep ds) acc, filterOrigin ds referenced kv := by
  intro rest
  induction rest with
  | nil => intro acc _ hacc kv hkv; exact hacc kv hkv
  | cons m rrest ih =>
    intro acc hsub hacc kv hkv
    simp only [List.foldl_cons] at hkv
    refine ih _ (fun x hx => hsub x (List.mem_cons_of_mem m hx)) ?_ kv hkv
    intro kv2 hkv2
    unfold filterStep at hkv2
    rcases hm : dsLookup ds m with _ | r
    · rw [hm] at hkv2
      by_cases hq : (toLowerStr m == "query_result") = true
      · rw [if_pos hq] at hkv2
        rcases hqr : dsLookup ds "query_result" with _ | r2
        · rw [hqr] at hkv2
          exact hacc kv2 hkv2
        · rw [hqr] at hkv2
          rcases dsInsertReplace_mem _ _ _ _ hkv2 with hin | heq
          · exact hacc kv2 hin
          · right
            have hq2 : toLowerStr m = "query_result" := by simpa using hq
            exact ⟨by rw [heq], by rw [heq, hqr], m, hsub m (List.mem_cons_self m rrest), hq2⟩
      · rw [if_neg hq] at hkv2
        exact hacc kv2 hkv2
    · rw [hm] at hkv2
      rcases dsInsertReplace_mem _ _ _ _ hkv2 with hin | heq
      · exact hacc kv2 hin
      · left
        exact ⟨by rw [heq]; exact hsub m (List.mem_cons_self m rrest), by rw [heq, hm]⟩

/-- `chunkConcat` distributes over append. -/
theorem chunkConcat_append (l1 l2 : List StreamEvent) :
    chunkConcat (l1 ++ l2) = chunkConcat l1 ++ chunkConcat l2 := by
  induction l1 with
  | nil => simp [chunkConcat, String.empty_append]
  | cons e t ih =>
    cases e <;> simp [chunkConcat, ih, String.append_assoc]

/-- A list without `chunk` events contributes nothing to `chunkConcat`. -/
theorem chunkConcat_eq_empty_of (l : List StreamEvent)
    (h : ∀ d, StreamEvent.chunk d ∉ l) : chunkConcat l = "" := by
  induction l with
  | nil => rfl
  | cons e t ih =>
    have ht : ∀ d, StreamEvent.chunk d ∉ t :=
      fun d hd => h d (List.mem_cons_of_mem _ hd)
    cases e with
    | chunk d => exact absurd (List.mem_cons_self _ _) (h d)
    | toolCallStarted t0 => exact ih ht
    | toolChunk t0 d0 => exact ih ht
    | toolResult t0 => exact ih ht
    | done a0 => exact ih ht
    | errEvent m0 => exact ih ht

/-- Shape of the events emitted for one tool call. -/
theorem mem_toolCallEvents (t r : String) (e : StreamEvent) (h : e ∈ toolCallEvents t r) :
    (∃ d, e = .toolChunk t d) ∨ e = .toolCallStarted t ∨ e = .toolResult t := by
  unfold toolCallEvents at h
  rcases List.mem_cons.mp h with he | he
  · right; left; exact he
  · rcases List.mem_append.mp he with hm | hm
    · rcases List.mem_map.mp hm with ⟨d, _, hd⟩
      left
      exact ⟨d, hd.symm⟩
    · right; right
      simpa using hm

/-- Tool rounds emit neither `chunk` nor `done` events. -/
theorem rounds_no_chunk_done (rounds : List (List (String × String))) :
    (∀ d, StreamEvent.chunk d ∉ (rounds.map roundEvents).flatten) ∧
    (∀ a, StreamEvent.done a ∉ (rounds.map roundEvents).flatten) := by
  have key : ∀ e ∈ (rounds.map roundEvents).flatten,
      (∀ d, e ≠ StreamEvent.chunk d) ∧ (∀ a, e ≠ StreamEvent.done a) := by
    intro e he
    rcases List.mem_flatten.mp he with ⟨l, hl, hel⟩
    rcases List.mem_map.mp hl with ⟨round, _, hr⟩
    subst hr
    unfold roundEvents at hel
    rcases List.mem_flatten.mp hel with ⟨l2, hl2, hel2⟩
    rcases List.mem_map.mp hl2 with ⟨tc, _, htc⟩
    subst htc
    rcases mem_toolCallEvents _ _ _ hel2 with ⟨d, hd⟩ | hd | hd <;>
      subst hd <;> exact ⟨(fun d2 h2 => by cases h2), (fun a2 h2 => by cases h2)⟩
  constructor
  · intro d hd
    exact (key _ hd).1 d rfl
  · intro a ha
    exact (key _ ha).2 a rfl

/-- `streamTail` accounting: if a `done` event occurs, its answer is the
accumulated text plus the concatenation of the emitted chunk deltas. -/
theorem streamTail_done (tokens : List (Option String)) :
    ∀ (assembled : String) (errOpt : Option String) (a : String),
      StreamEvent.done a ∈ streamTail tokens assembled errOpt →
      assembled ++ chunkConcat (streamTail tokens assembled errOpt) = a := by
  induction tokens with
  | nil =>
    intro assembled errOpt a h
    cases errOpt with
    | none =>
      simp only [streamTail] at h ⊢
      have ha : a = assembled := by simpa using h
      subst ha
      simp [chunkConcat, String.append_empty]
    | some e =>
      simp [streamTail] at h
  | cons d ds ih =>
    intro assembled errOpt a h
    cases d with
    | none =>
      simp only [streamTail] at h ⊢
      exact ih assembled errOpt a h
    | some t =>
      by_cases ht : t = ""
      · subst ht
        simp only [streamTail, if_pos rfl] at h ⊢
        exact ih assembled errOpt a h
      · simp only [streamTail, if_neg ht] at h ⊢
        rcases List.mem_cons.mp h with he | he
        · cases he
        · have := ih (assembled ++ t) errOpt a he
          rw [show chunkConcat (StreamEvent.chunk t :: streamTail ds (assembled ++ t) errOpt)
              = t ++ chunkConcat (streamTail ds (assembled ++ t) errOpt) from rfl]
          rw [← String.append_assoc]
          exact this

/-- On the error-free path, `streamTail` does emit the `done` event
carrying the accumulated answer. -/
theorem streamTail_none_mem (tokens : List (Option String)) :
    ∀ assembled : String,
      StreamEvent.done (assembled ++ chunkConcat (streamTail tokens assembled none)) ∈
        streamTail tokens assembled none := by
  induction tokens with
  | nil =>
    intro assembled
    simp [streamTail, chunkConcat, String.append_empty]
  | cons d ds ih =>
    intro assembled
    cases d with
    | none => simpa only [streamTail] using ih assembled
    | some t =>
      by_cases ht : t = ""
      · subst ht
        simpa only [streamTail, if_pos rfl] using ih assembled
      · simp only [streamTail, if_neg ht]
        rw [show chunkConcat (StreamEvent.chunk t :: streamTail ds (assembled ++ t) none)
            = t ++ chunkConcat (streamTail ds (assembled ++ t) none) from rfl]
        rw [← String.append_assoc]
        exact List.mem_cons_of_mem _ (ih (assembled ++ t))

/-! ### Normalizer trigger analysis (for C6) -/

/-- The literal keyword each rewrite rule of `normalize_sql` must see
before it can match. -/
def normTriggers : List (List Char) :=
  ["CURDATE".data, "DATE_SUB".data, "DATE_ADD".data, "UNIX_TIMESTAMP".data,
   "FROM_UNIXTIME".data, "IFNULL".data, "IF".data, "DATE_FORMAT".data,
   "STR_TO_DATE".data, "YEAR".data, "MONTH".data, "LIMIT".data]

/-- A string is trigger-free when it has no backtick and, case-insensitively,
contains none of the rule keywords. -/
def triggerFree (s : String) : Bool :=
  !(s.data.any (· = btChar)) && normTriggers.all (fun t => !(containsCI t s.data))

/-- The scanner leaves the input untouched when the matcher can never fire,
at any fuel. -/
theorem rewriteAux_id (m : Matcher) (trig : List Char)
    (hm : ∀ prev cs, startsWithCI trig cs = false → m prev cs = none) :
    ∀ (fuel : Nat) (prev : Option Char) (cs : List Char),
      containsCI trig cs = false → rewriteAux m fuel prev cs = cs := by
  intro fuel
  induction fuel with
  | zero => intro prev cs _; rfl
  | succ f ih =>
    intro prev cs h
    cases cs with
    | nil => rfl
    | cons c t =>
      have h2 : (startsWithCI trig (c :: t) || containsCI trig t) = false := by
        rw [← h]
        rfl
      rw [Bool.or_eq_false_iff] at h2
      simp only [rewriteAux, hm prev (c :: t) h2.1]
      exact congrArg (c :: ·) (ih (some c) t h2.2)

/-- A rewrite rule whose matcher needs its trigger keyword is the identity
on strings not containing that keyword. -/
theorem applyRule_id (m : Matcher) (trig : List Char)
    (hm : ∀ prev cs, startsWithCI trig cs = false → m prev cs = none)
    (s : String) (h : containsCI trig s.data = false) : applyRule m s = s := by
  unfold applyRule
  rw [rewriteAux_id m trig hm _ none s.data h]

/-- The backtick rewrite is the identity on backtick-free strings. -/
theorem backtickRule_id (s : String) (h : s.data.any (· = btChar) = false) :
    backtickRule s = s := by
  unfold backtickRule
  have : ∀ cs : List Char, cs.any (· = btChar) = false →
      cs.map (fun c => if c = btChar then qChar else c) = cs := by
    intro cs
    induction cs with
    | nil => intro _; rfl
    | cons c t ih =>
      intro hc
      have h2 : ((c = btChar : Bool) || t.any (· = btChar)) = false := by
        rw [← hc]
        rfl
      rw [Bool.or_eq_false_iff] at h2
      rw [List.map_cons, if_neg (by simpa using h2.1), ih h2.2]
  rw [this s.data h]

/-- `mCURDATE` cannot fire without its keyword. -/
theorem mCURDATE_none (prev : Option Char) (cs : List Char)
    (h : startsWithCI "CURDATE".data cs = false) : mCURDATE prev cs = none := by
  simp [mCURDATE, eatCI, h]

/-- `mDateArith` cannot fire without its keyword. -/
theorem mDateArith_none (kw : List Char) (sign : Char) (prev : Option Char) (cs : List Char)
    (h : startsWithCI kw cs = false) : mDateArith kw sign prev cs = none := by
  simp [mDateArith, eatCI, h]

/-- `mUnixEmpty` cannot fire without its keyword. -/
theorem mUnixEmpty_none (prev : Option Char) (cs : List Char)
    (h : startsWithCI "UNIX_TIMESTAMP".data cs = false) : mUnixEmpty prev cs = none := by
  simp [mUnixEmpty, eatCI, h]

/-- `mUnixExpr` cannot fire without its keyword. -/
theorem mUnixExpr_none (prev : Option Char) (cs : List Char)
    (h : startsWithCI "UNIX_TIMESTAMP".data cs = false) : mUnixExpr prev cs = none := by
  simp [mUnixExpr, eatCI, h]

/-- `mFromUnix` cannot fire without its keyword. -/
theorem mFromUnix_none (prev : Option Char) (cs : List Char)
    (h : startsWithCI "FROM_UNIXTIME".data cs = false) : mFromUnix prev cs = none := by
  simp [mFromUnix, eatCI, h]

/-- `mIFNULL` cannot fire without its keyword. -/
theorem mIFNULL_none (prev : Option Char) (cs : List Char)
    (h : startsWithCI "IFNULL".data cs = false) : mIFNULL prev cs = none := by
  simp [mIFNULL, eatCI, h]

/-- `mIF` cannot fire without its keyword. -/
theorem mIF_none (prev : Option Char) (cs : List Char)
    (h : startsWithCI "IF".data cs = false) : mIF prev cs = none := by
  simp [mIF, eatCI, h]

/-- `mDateFormat` cannot fire without its keyword. -/
theorem mDateFormat_none (prev : Option Char) (cs : List Char)
    (h : startsWithCI "DATE_FORMAT".data cs = false) : mDateFormat prev cs = none := by
  simp [mDateFormat, eatCI, h]

/-- `mStrToDate` cannot fire without its keyword. -/
theorem mStrToDate_none (prev : Option Char) (cs : List Char)
    (h : startsWithCI "STR_TO_DATE".data cs = false) : mStrToDate prev cs = none := by
  simp [mStrToDate, eatCI, h]

/-- `mYEAR` cannot fire without its keyword. -/
theorem mYEAR_none (prev : Option Char) (cs : List Char)
    (h : startsWithCI "YEAR".data cs = false) : mYEAR prev cs = none := by
  simp [mYEAR, eatCI, h]

/-- `mMONTH` cannot fire without its keyword. -/
theorem mMONTH_none (prev : Option Char) (cs : List Char)
    (h : startsWithCI "MONTH".data cs = false) : mMONTH prev cs = none := by
  simp [mMONTH, eatCI, h]

/-- `mLIMIT` cannot fire without its keyword. -/
theorem mLIMIT_none (prev : Option Char) (cs : List Char)
    (h : startsWithCI "LIMIT".data cs = false) : mLIMIT prev cs = none := by
  simp [mLIMIT, eatCI, h]

/-- On a trigger-free string, every rewrite pass of `normalize_sql` is the
identity. -/
theorem normalize_sql_id (s : String) (h : triggerFree s = true) : normalize_sql s = s := by
  have hbt : s.data.any (· = btChar) = false := by
    simp only [triggerFree, Bool.and_eq_true, Bool.not_eq_true'] at h
    exact h.1
  have hall : ∀ t ∈ normTriggers, containsCI t s.data = false := by
    simp only [triggerFree, Bool.and_eq_true, List.all_eq_true, Bool.not_eq_true'] at h
    exact h.2
  simp only [normalize_sql]
  rw [backtickRule_id s hbt,
    applyRule_id mCURDATE "CURDATE".data mCURDATE_none s
      (hall _ (by simp [normTriggers])),
    applyRule_id (mDateArith "DATE_SUB".data '-') "DATE_SUB".data
      (mDateArith_none "DATE_SUB".data '-') s (hall _ (by simp [normTriggers])),
    applyRule_id (mDateArith "DATE_ADD".data '+') "DATE_ADD".data
      (mDateArith_none "DATE_ADD".data '+') s (hall _ (by simp [normTriggers])),
    applyRule_id mUnixEmpty "UNIX_TIMESTAMP".data mUnixEmpty_none s
      (hall _ (by simp [normTriggers])),
    applyRule_id mUnixExpr "UNIX_TIMESTAMP".data mUnixExpr_none s
      (hall _ (by simp [normTriggers])),
    applyRule_id mFromUnix "FROM_UNIXTIME".data mFromUnix_none s
      (hall _ (by simp [normTriggers])),
    applyRule_id mIFNULL "IFNULL".data mIFNULL_none s
      (hall _ (by simp [normTriggers])),
    applyRule_id mIF "IF".data mIF_none s (hall _ (by simp [normTriggers])),
    applyRule_id mDateFormat "DATE_FORMAT".data mDateFormat_none s
      (hall _ (by simp [normTriggers])),
    applyRule_id mStrToDate "STR_TO_DATE".data mStrToDate_none s
      (hall _ (by simp [normTriggers])),
    applyRule_id mYEAR "YEAR".data mYEAR_none s (hall _ (by simp [normTriggers])),
    applyRule_id mMONTH "MONTH".data mMONTH_none s (hall _ (by simp [normTriggers])),
    applyRule_id mLIMIT "LIMIT".data mLIMIT_none s (hall _ (by simp [normTriggers]))]

/-! ### Claim theorems -/

/-- C1 counterexample: the claim asserts that any SQL containing the
substring `DROP TABLE x` is rejected in both modes, but
`SELECT xDROP TABLE x` contains that substring (with `DROP` glued to a word
character, so no whole-word match) and `enforce_readonly` accepts it in
both relaxed and strict mode. -/
theorem C1_counterexample :
    containsStr "DROP TABLE x" "SELECT xDROP TABLE x" = true ∧
    exceptOk (enforce_readonly "SELECT xDROP TABLE x" false) = true ∧
    exceptOk (enforce_readonly "SELECT xDROP TABLE x" true) = true := by
  decide

/-- C1 (amended): `enforce_readonly` rejects, in both modes, every SQL
containing a banned keyword as a whole word — in particular any SQL with a
whole-word `DROP` token, such as `DROP TABLE x` itself; both modes accept
`SELECT 1`; relaxed mode accepts any banned-word-free statement starting
with SELECT/WITH/EXPLAIN/VALUES/`(` or containing SELECT anywhere; strict
mode rejects `SELECT 1; SELECT 2` and accepts only statements starting with
SELECT, WITH or `(`. -/
theorem C1_enforce_readonly :
    (∀ (s : String) (m : Bool), bannedPresent (upperL (pyStripL s.data)) = true →
      exceptOk (enforce_readonly s m) = false) ∧
    (∀ (s : String) (m : Bool), "DROP".data ∈ wordTokens (upperL (pyStripL s.data)) →
      exceptOk (enforce_readonly s m) = false) ∧
    exceptOk (enforce_readonly "DROP TABLE x" false) = false ∧
    exceptOk (enforce_readonly "DROP TABLE x" true) = false ∧
    exceptOk (enforce_readonly "SELECT 1" false) = true ∧
    exceptOk (enforce_readonly "SELECT 1" true) = true ∧
    (∀ s : String, bannedPresent (upperL (pyStripL s.data)) = false →
      (startsWithL "SELECT".data (upperL (pyStripL s.data)) ||
       startsWithL "WITH".data (upperL (pyStripL s.data)) ||
       startsWithL "EXPLAIN".data (upperL (pyStripL s.data)) ||
       startsWithL "VALUES".data (upperL (pyStripL s.data)) ||
       startsWithL "(".data (upperL (pyStripL s.data)) ||
       containsL "SELECT".data (upperL (pyStripL s.data))) = true →
      exceptOk (enforce_readonly s false) = true) ∧
    exceptOk (enforce_readonly "SELECT 1; SELECT 2" true) = false ∧
    (∀ s : String, exceptOk (enforce_readonly s true) = true →
      (startsWithL "SELECT".data (upperL (pyStripL s.data)) ||
       startsWithL "WITH".data (upperL (pyStripL s.data)) ||
       startsWithL "(".data (upperL (pyStripL s.data))) = true) := by
  refine ⟨readonly_banned_rejects,
    fun s m h => readonly_banned_rejects s m (drop_token_banned _ h),
    by decide, by decide, by decide, by decide,
    readonly_relaxed_accepts, by decide, readonly_strict_only⟩

/-- Witness for C1 at concrete inputs: `DELETE FROM t` carries a banned
whole word and is rejected in relaxed mode; `explain select 1` is
banned-free, starts with EXPLAIN, and relaxed mode accepts it. -/
theorem C1_enforce_readonly_witness :
    exceptOk (enforce_readonly "DELETE FROM t" false) = false ∧
    exceptOk (enforce_readonly "explain select 1" false) = true :=
  ⟨C1_enforce_readonly.1 "DELETE FROM t" false (by decide),
   C1_enforce_readonly.2.2.2.2.2.2.1 "explain select 1" (by decide) (by decide)⟩

/-- C2: `enforce_allowlist` is a no-op on a context with no tables; in
relaxed mode a statement whose padded lower-cased text has no `" from "`
passes trivially, and otherwise acceptance is exactly the occurrence of at
least one allowed table name as a case-insensitive substring (so with
`prices` in context, `SELECT * FROM prices` and `SELECT 1` are accepted);
in strict mode acceptance is exactly a non-empty FROM/JOIN identifier list
wholly inside the allowed set (so `SELECT 1` and
`SELECT * FROM other_table` are rejected). -/
theorem C2_enforce_allowlist :
    (∀ (sql : String) (m : Bool), exceptOk (enforce_allowlist sql ⟨[]⟩ m) = true) ∧
    (∀ (sql : String) (ctx : ChartContext),
      containsL " from ".data (' ' :: (lowerL sql.data ++ [' '])) = false →
      exceptOk (enforce_allowlist sql ctx false) = true) ∧
    (∀ (sql : String) (ctx : ChartContext),
      (allowedTables ctx).isEmpty = false →
      containsL " from ".data (' ' :: (lowerL sql.data ++ [' '])) = true →
      (exceptOk (enforce_allowlist sql ctx false) = true ↔
        (allowedTables ctx).any
          (fun t => t != "" && containsL t.data (lowerL sql.data)) = true)) ∧
    exceptOk (enforce_allowlist "SELECT * FROM prices" ctxPrices false) = true ∧
    exceptOk (enforce_allowlist "SELECT 1" ctxPrices false) = true ∧
    exceptOk (enforce_allowlist "SELECT 1" ctxPrices true) = false ∧
    exceptOk (enforce_allowlist "SELECT * FROM other_table" ctxPrices true) = false ∧
    (∀ (sql : String) (ctx : ChartContext),
      (allowedTables ctx).isEmpty = false →
      (exceptOk (enforce_allowlist sql ctx true) = true ↔
        ((extractTables sql.data).isEmpty = false ∧
         ∀ t ∈ extractTables sql.data, t ∈ allowedTables ctx))) := by
  refine ⟨fun sql m => by simp [enforce_allowlist, exceptOk],
    allowlist_relaxed_skip,
    fun sql ctx ha hf => allowlist_relaxed_check sql ctx ha hf,
    by decide, by decide, by decide, by decide,
    fun sql ctx ha => allowlist_strict_check sql ctx ha⟩

/-- Witness for C2 at concrete inputs: the empty context accepts anything;
`select close from prices` passes the relaxed substring check; strict mode
accepts `SELECT p.close FROM prices p`. -/
theorem C2_enforce_allowlist_witness :
    exceptOk (enforce_allowlist "VACUUM" ⟨[]⟩ true) = true ∧
    exceptOk (enforce_allowlist "select close from prices" ctxPricesClose false) = true ∧
    exceptOk (enforce_allowlist "SELECT p.close FROM prices p" ctxPricesClose true) = true :=
  ⟨C2_enforce_allowlist.1 "VACUUM" true,
   (C2_enforce_allowlist.2.2.1 "select close from prices" ctxPricesClose
      (by decide) (by decide)).mpr (by decide),
   (C2_enforce_allowlist.2.2.2.2.2.2.2 "SELECT p.close FROM prices p" ctxPricesClose
      (by decide)).mpr (by decide)⟩

/-- C3 counterexample: with no backed virtuals, no virtual token and no
single-real-table rewrite, the claim says the sql is returned unchanged,
but `_inject_virtual_table` strips it: `"SELECT 1 "` (trailing space)
comes back as `"SELECT 1"`. -/
theorem C3_counterexample :
    inject_virtual_table "SELECT 1 " (⟨[]⟩ : ChartContext) ≠ "SELECT 1 " ∧
    inject_virtual_table "SELECT 1 " (⟨[]⟩ : ChartContext) = "SELECT 1" := by
  decide

/-- C3 (amended): `inject_virtual_table` behaves as the three-case
reference definition applied to the stripped statement: with backed
virtuals present it returns the `WITH alias AS (base_sql), ...` clause over
all backed virtuals in context order followed by the stripped statement
(merged into an existing leading `WITH ` if present), returning immediately
without the fallback; else with a virtual token present and exactly one
real table every virtual token is rewritten to that table (so
`SELECT * FROM query_result_3` against single real table `prices` becomes
`SELECT * FROM prices` with no virtual token left); otherwise the stripped
statement is returned (unchanged whenever it has no leading or trailing
whitespace). -/
theorem C3_inject_virtual_table :
    (∀ (sql : String) (ctx : ChartContext), (backedVirtuals ctx).isEmpty = false →
      inject_virtual_table sql ctx =
        (if startsWithL "WITH ".data (upperL (pyStripL sql.data)) then
          (⟨"WITH ".data ++
            joinSep [',', '\n'] ((backedVirtuals ctx).map
              (fun ab => ab.1.data ++ " AS (".data ++ ab.2.data ++ [')'])) ++
            [',', '\n'] ++ stripLead ((pyStripL sql.data).drop 5)⟩ : String)
        else
          (⟨"WITH ".data ++
            joinSep [',', '\n'] ((backedVirtuals ctx).map
              (fun ab => ab.1.data ++ " AS (".data ++ ab.2.data ++ [')'])) ++
            ['\n'] ++ pyStripL sql.data⟩ : String))) ∧
    (∀ (sql : String) (ctx : ChartContext) (r : String),
      (backedVirtuals ctx).isEmpty = true →
      hasVirtualToken (pyStripL sql.data) = true →
      realTables ctx = [r] →
      inject_virtual_table sql ctx =
        ⟨subTokensAux r.data (pyStripL sql.data).length (pyStripL sql.data)⟩) ∧
    (∀ (sql : String) (ctx : ChartContext),
      (backedVirtuals ctx).isEmpty = true →
      (hasVirtualToken (pyStripL sql.data) = false ∨ (realTables ctx).length ≠ 1) →
      inject_virtual_table sql ctx = pyStrip sql) ∧
    inject_virtual_table "SELECT * FROM query_result_3" ctxPrices = "SELECT * FROM prices" ∧
    hasVirtualToken (inject_virtual_table "SELECT * FROM query_result_3" ctxPrices).data
      = false := by
  refine ⟨?_, ?_, ?_, by decide, by decide⟩
  · intro sql ctx h
    unfold inject_virtual_table
    simp only [h, Bool.not_false, if_true]
  · intro sql ctx r h1 h2 h3
    unfold inject_virtual_table
    simp only [h1, Bool.not_true, Bool.false_eq_true, if_false, h2, if_true, h3]
  · intro sql ctx h1 h2
    unfold inject_virtual_table
    simp only [h1, Bool.not_true, Bool.false_eq_true, if_false]
    rcases h2 with h2 | h2
    · simp only [h2, Bool.false_eq_true, if_false, pyStrip]
    · rcases hr : realTables ctx with _ | ⟨a, _ | ⟨b, t⟩⟩
      · cases hv : hasVirtualToken (pyStripL sql.data) <;> simp [pyStrip]
      · exact absurd (by rw [hr]; rfl) h2
      · cases hv : hasVirtualToken (pyStripL sql.data) <;> simp [pyStrip]

/-- Witness for C3 at concrete inputs: a backed virtual produces the WITH
clause; the empty context returns the stripped statement. -/
theorem C3_inject_virtual_table_witness :
    inject_virtual_table "SELECT a FROM query_result"
      (⟨[⟨"query_result", ["a"], "SELECT 1"⟩]⟩ : ChartContext) =
      "WITH query_result AS (SELECT 1)\nSELECT a FROM query_result" ∧
    inject_virtual_table " SELECT 2 " (⟨[]⟩ : ChartContext) = "SELECT 2" := by
  constructor
  · have h := C3_inject_virtual_table.1 "SELECT a FROM query_result"
      (⟨[⟨"query_result", ["a"], "SELECT 1"⟩]⟩ : ChartContext) (by decide)
    rw [h]
    decide
  · have h := C3_inject_virtual_table.2.2.1 " SELECT 2 " (⟨[]⟩ : ChartContext)
      (by decide) (Or.inl (by decide))
    rw [h]
    decide

/-- C4: `db_query` normalizes then injects, and whenever the injected SQL
references a virtual alias absent from the context's backed-virtual names
while the context does not have exactly one real table, it returns the
structured missing-virtuals error (error text, sorted missing aliases,
available aliases, hint, injected SQL) instead of proceeding to
`enforce_readonly`, `enforce_allowlist` and the database executor. -/
theorem C4_db_query_missing_guard :
    (∀ (s : String) (ctx : ChartContext),
      ((missingVirtualsOf s ctx).isEmpty = false ↔
        ∃ u ∈ usedVirtualsNorm s, u ∉ availNorm ctx)) ∧
    (∀ (sql : String) (ctx : ChartContext),
      (missingVirtualsOf (inject_virtual_table (normalize_sql sql) ctx) ctx).isEmpty = false →
      (realTables ctx).length ≠ 1 →
      db_query sql ctx = .missingCtx
        ⟨"Missing virtual tables in chartContext",
         missingVirtualsOf (inject_virtual_table (normalize_sql sql) ctx) ctx,
         sortStr (availNorm ctx), missingHint,
         inject_virtual_table (normalize_sql sql) ctx⟩) := by
  constructor
  · intro s ctx
    unfold missingVirtualsOf
    rw [sortStr_isEmpty]
    simp [List.isEmpty_iff, List.filter_eq_nil_iff]
  · intro sql ctx h1 h2
    unfold db_query
    simp only [h1, Bool.not_false, Bool.true_and]
    rw [if_pos (by simpa using h2)]

/-- Witness for C4 at a concrete input: `SELECT * FROM query_result_2`
against an empty context short-circuits with the structured error. -/
theorem C4_db_query_missing_guard_witness :
    db_query "SELECT * FROM query_result_2" (⟨[]⟩ : ChartContext) = .missingCtx
      ⟨"Missing virtual tables in chartContext", ["query_result_2"], [],
       missingHint, "SELECT * FROM query_result_2"⟩ := by
  have h := C4_db_query_missing_guard.2 "SELECT * FROM query_result_2"
    (⟨[]⟩ : ChartContext) (by decide) (by decide)
  rw [h]
  decide

/-- C5: `plot_render` (total in this model, so it never raises) returns a
`ValidationResult` with `ok` true exactly when the issue list is empty; a
bare field passes iff its case-folded name is in the union of context
columns, an `alias.column` field passes iff the alias is a known table
whose column set holds the case-folded column, each miss contributing the
issue naming channel and field; a candlestick mark requires x, open, high,
low, close present and field-valid, so a candlestick spec missing `low` is
not ok with an issue naming `low`, while a line spec whose `y` field is an
allowed column is ok with no issues. -/
theorem C5_plot_render :
    (∀ (spec : RenderSpec) (ctx : ChartContext),
      (plot_render spec ctx).ok = true ↔ (plot_render spec ctx).issues = []) ∧
    (∀ (ctx : ChartContext) (ch f : String), f ≠ "" → f.data.any (· = '.') = false →
      checkFieldIssues ctx ch (.fstr f) =
        (if toLowerStr f ∈ allowedColumnsUnion ctx then []
         else ["Field not in context: " ++ f ++ " (encoding." ++ ch ++ ")"])) ∧
    (∀ (ctx : ChartContext) (ch f : String), f ≠ "" → f.data.any (· = '.') = true →
      (checkFieldIssues ctx ch (.fstr f) = [] ↔
        ∃ cols, allowedByAlias ctx ⟨f.data.takeWhile (· ≠ '.')⟩ = some cols ∧
          toLowerStr ⟨(f.data.dropWhile (· ≠ '.')).drop 1⟩ ∈ cols)) ∧
    (∀ (ctx : ChartContext) (ch f : String), f ≠ "" → f.data.any (· = '.') = true →
      checkFieldIssues ctx ch (.fstr f) ≠ [] →
      checkFieldIssues ctx ch (.fstr f) =
        ["Field not in context: " ++ f ++ " (encoding." ++ ch ++ ")"]) ∧
    (∀ (spec : RenderSpec) (ctx : ChartContext),
      markIsCandle spec.mark = true → (plot_render spec ctx).ok = true →
      ∀ k ∈ candleKeys, ∃ v, lookupEnc spec.encoding k = some v ∧
        checkFieldIssues ctx k v = []) ∧
    ((plot_render ⟨some "candlestick",
        [("x", .fstr "symbol"), ("open", .fstr "close"), ("high", .fstr "close"),
         ("close", .fstr "close")]⟩ ctxPrices).ok = false ∧
      "Missing encoding.low for candlestick" ∈
        (plot_render ⟨some "candlestick",
          [("x", .fstr "symbol"), ("open", .fstr "close"), ("high", .fstr "close"),
           ("close", .fstr "close")]⟩ ctxPrices).issues) ∧
    ((plot_render ⟨some "line", [("y", .fstr "close")]⟩ ctxPrices).ok = true ∧
      (plot_render ⟨some "line", [("y", .fstr "close")]⟩ ctxPrices).issues = []) := by
  refine ⟨?_, ?_, ?_, ?_, ?_, by decide, by decide⟩
  · intro spec ctx
    simp [plot_render, List.isEmpty_iff]
  · intro ctx ch f hne hdot
    unfold checkFieldIssues
    simp only [extract_field]
    rw [if_neg hne, if_neg (by simp [hdot])]
    cases hc : (allowedColumnsUnion ctx).contains (toLowerStr f) with
    | true =>
      rw [if_pos (show toLowerStr f ∈ allowedColumnsUnion ctx by simpa using hc)]
      simp
    | false =>
      rw [if_neg (show toLowerStr f ∉ allowedColumnsUnion ctx by simpa using hc)]
      simp
  · intro ctx ch f hne hdot
    unfold checkFieldIssues
    simp only [extract_field]
    rw [if_neg hne, if_pos (by simp [hdot])]
    rcases ha : allowedByAlias ctx ⟨f.data.takeWhile (· ≠ '.')⟩ with _ | cols
    · simp
    · cases hc : cols.contains (toLowerStr ⟨(f.data.dropWhile (· ≠ '.')).drop 1⟩) with
      | true =>
        have hmem : toLowerStr ⟨(f.data.dropWhile (· ≠ '.')).drop 1⟩ ∈ cols := by
          simpa using hc
        simp [hc, hmem]
      | false =>
        have hmem : toLowerStr ⟨(f.data.dropWhile (· ≠ '.')).drop 1⟩ ∉ cols := by
          simpa using hc
        simp [hc, hmem]
  · intro ctx ch f hne hdot
    unfold checkFieldIssues
    simp only [extract_field]
    rw [if_neg hne, if_pos (by simp [hdot])]
    rcases ha : allowedByAlias ctx ⟨f.data.takeWhile (· ≠ '.')⟩ with _ | cols
    · intro _
      rfl
    · cases hc : cols.contains (toLowerStr ⟨(f.data.dropWhile (· ≠ '.')).drop 1⟩) with
      | true =>
        intro hcontra
        exfalso
        apply hcontra
        simp [hc]
        simpa using hc
      | false =>
        intro _
        simp [hc]
        simpa using hc
  · intro spec ctx hmark hok
    have hiss : generalIssues ctx spec.encoding = [] ∧ candleIssues ctx spec = [] := by
      have := hok
      simp [plot_render, List.isEmpty_iff] at this
      exact this
    have hcand : candleIssues ctx spec = [] := hiss.2
    unfold candleIssues at hcand
    rw [if_pos hmark] at hcand
    intro k hk
    have hk2 : (match lookupEnc spec.encoding k with
        | none => ["Missing encoding." ++ k ++ " for candlestick"]
        | some v => checkFieldIssues ctx k v) = [] := by
      have := List.flatten_eq_nil_iff.mp hcand
      exact this _ (List.mem_map_of_mem _ hk)
    rcases hl : lookupEnc spec.encoding k with _ | v
    · rw [hl] at hk2
      simp at hk2
    · rw [hl] at hk2
      exact ⟨v, rfl, hk2⟩

/-- Witness for C5 at concrete inputs: the bare field `close` passes
against `prices(symbol, close)`; the dotted field `prices.close` passes the
alias check. -/
theorem C5_plot_render_witness :
    checkFieldIssues ctxPrices "y" (.fstr "close") = [] ∧
    checkFieldIssues ctxPrices "y" (.fstr "prices.close") = [] := by
  constructor
  · have h := C5_plot_render.2.1 ctxPrices "y" "close" (by decide) (by decide)
    rw [h]
    decide
  · exact (C5_plot_render.2.2.1 ctxPrices "y" "prices.close" (by decide) (by decide)).mpr
      ⟨["symbol", "close"], by decide, by decide⟩

/-- C7: `_build_datasets_from_prior_queries` walks the prior query records
most recent first, binding the rows of each record with a rows list to
every not-yet-bound `query_result(_n)?` alias of its SQL text (injected,
else normalized, else raw) and to the bare `query_result` key when the
record references no alias, the most recent binding winning; with a
non-empty referenced set the result holds exactly the referenced names that
are bound (plus the `query_result` fallback for any casing of that name),
so records bound to `query_result` and `query_result_2` filtered by
`query_result_2` give exactly that key; an empty referenced set returns the
whole accumulated map. -/
theorem C7_build_datasets :
    (∀ (referenced : List String),
      build_datasets referenced ([] : List (QueryRecord Nat)) = []) ∧
    (∀ (α : Type) (prior : List (QueryRecord α)), prior.isEmpty = false →
      build_datasets [] prior = accumAll prior) ∧
    (∀ (α : Type) (qs : List (QueryRecord α)) (q : QueryRecord α) (rows : List α)
        (a : String), q.rows = some rows →
      a ∈ dedupStr (virtualTokensIn (sqlTextOf q).data) →
      dsLookup (accumAll (qs ++ [q])) a = some rows) ∧
    (∀ (α : Type) (qs : List (QueryRecord α)) (q : QueryRecord α) (rows : List α),
      q.rows = some rows → dedupStr (virtualTokensIn (sqlTextOf q).data) = [] →
      dsLookup (accumAll (qs ++ [q])) "query_result" = some rows) ∧
    (∀ (α : Type) (ds : List (String × List α)) (referenced : List String)
        (n : String) (rows : List α), n ∈ referenced → dsLookup ds n = some rows →
      dsLookup (filterRefd referenced ds) n = some rows) ∧
    (∀ (α : Type) (ds : List (String × List α)) (referenced : List String)
        (kv : String × List α), kv ∈ filterRefd referenced ds →
      filterOrigin ds referenced kv) ∧
    build_datasets ["query_result_2"]
      ([⟨some "SELECT * FROM query_result", none, none, some [1]⟩,
        ⟨some "SELECT * FROM query_result_2", none, none, some [2]⟩] :
        List (QueryRecord Nat)) = [("query_result_2", [2])] := by
  refine ⟨fun referenced => by simp [build_datasets], ?_, ?_, ?_, ?_, ?_, by decide⟩
  · intro α prior h
    simp [build_datasets, h]
  · intro α qs q rows a hq ha
    have hbase : dsLookup (accumStep ([] : List (String × List α)) q) a = some rows := by
      unfold accumStep
      rw [hq]
      dsimp only
      have hne : (dedupStr (virtualTokensIn (sqlTextOf q).data)).isEmpty = false := by
        rcases hl : dedupStr (virtualTokensIn (sqlTextOf q).data) with _ | ⟨x, t⟩
        · rw [hl] at ha
          cases ha
        · rfl
      rw [if_neg (by simp [hne])]
      exact dsLookup_foldlAdd_binds rows a _ [] ha rfl
    unfold accumAll
    rw [List.reverse_append]
    simp only [List.reverse_cons, List.reverse_nil, List.nil_append, List.singleton_append,
      List.foldl_cons]
    exact foldl_accumStep_preserve _ _ _ _ hbase
  · intro α qs q rows hq hal
    have hbase : dsLookup (accumStep ([] : List (String × List α)) q) "query_result"
        = some rows := by
      unfold accumStep
      rw [hq]
      dsimp only
      rw [if_pos (by simp [hal])]
      simp [dsAddIfAbsent, dsLookup, List.find?]
    unfold accumAll
    rw [List.reverse_append]
    simp only [List.reverse_cons, List.reverse_nil, List.nil_append, List.singleton_append,
      List.foldl_cons]
    exact foldl_accumStep_preserve _ _ _ _ hbase
  · intro α ds referenced n rows hm hd
    exact filterRefd_binds ds referenced n rows hm hd
  · intro α ds referenced kv h
    exact filterRefd_mem_aux ds referenced referenced [] (fun m hm => hm)
      (fun kv2 h2 => absurd h2 (List.not_mem_nil _)) kv h

/-- Witness for C7 at a concrete input: a single prior record referencing
`query_result_2` binds that alias to its rows. -/
theorem C7_build_datasets_witness :
    dsLookup (accumAll
      (([] : List (QueryRecord Nat)) ++
        [⟨some "SELECT * FROM query_result_2", none, none, some [7]⟩]))
      "query_result_2" = some [7] :=
  C7_build_datasets.2.2.1 Nat []
    ⟨some "SELECT * FROM query_result_2", none, none, some [7]⟩ [7] "query_result_2"
    rfl (by decide)

/-- C8: in every run of `run_agent_stream`, the concatenation of the
`delta` fields of the emitted `chunk` events equals the `answer` of the
terminal `done` event, with no duplication or loss — on runs with a
configured client (tool rounds contribute no `chunk` or `done` events, the
final token stream accumulates exactly what it yields, and on the
error-free path the `done` event is emitted) as well as on the
unconfigured-client fallback path, whose event list is fixed. -/
theorem C8_stream_chunks_match_done :
    (∀ (configured : Bool) (rounds : List (List (String × String)))
        (tokens : List (Option String)) (streamErr : Option String) (a : String),
      StreamEvent.done a ∈ run_agent_stream configured rounds tokens streamErr →
      chunkConcat (run_agent_stream configured rounds tokens streamErr) = a) ∧
    (∀ (rounds : List (List (String × String))) (tokens : List (Option String))
        (streamErr : Option String),
      run_agent_stream false rounds tokens streamErr =
        (fallbackPieces.map .chunk) ++ [.done (String.join fallbackPieces)]) ∧
    (∀ (rounds : List (List (String × String))) (tokens : List (Option String)),
      StreamEvent.done (chunkConcat (run_agent_stream true rounds tokens none)) ∈
        run_agent_stream true rounds tokens none) := by
  refine ⟨?_, fun rounds tokens streamErr => rfl, ?_⟩
  · intro configured rounds tokens streamErr a h
    cases configured with
    | false =>
      have he : run_agent_stream false rounds tokens streamErr =
          (fallbackPieces.map .chunk) ++ [.done (String.join fallbackPieces)] := rfl
      rw [he] at h ⊢
      have ha : a = String.join fallbackPieces := by
        simpa [fallbackPieces] using h
      subst ha
      decide
    | true =>
      have he : run_agent_stream true rounds tokens streamErr =
          (rounds.map roundEvents).flatten ++ streamTail tokens "" streamErr := rfl
      rw [he] at h ⊢
      rcases List.mem_append.mp h with hm | hm
      · exact absurd hm ((rounds_no_chunk_done rounds).2 a)
      · rw [chunkConcat_append,
          chunkConcat_eq_empty_of _ (fun d => (rounds_no_chunk_done rounds).1 d),
          String.empty_append]
        have := streamTail_done tokens "" streamErr a hm
        rwa [String.empty_append] at this
  · intro rounds tokens
    have he : run_agent_stream true rounds tokens none =
        (rounds.map roundEvents).flatten ++ streamTail tokens "" none := rfl
    rw [he, chunkConcat_append,
      chunkConcat_eq_empty_of _ (fun d => (rounds_no_chunk_done rounds).1 d),
      String.empty_append]
    refine List.mem_append.mpr (Or.inr ?_)
    have := streamTail_none_mem tokens ""
    rwa [String.empty_append] at this

/-- Witness for C8 at a concrete input: the fallback run's chunk deltas
concatenate to its `done` answer. -/
theorem C8_stream_chunks_match_done_witness :
    chunkConcat (run_agent_stream false [] [] none) = String.join fallbackPieces :=
  C8_stream_chunks_match_done.1 false [] [] none (String.join fallbackPieces) (by decide)

/-- C6 counterexample: `normalize_sql` is not idempotent.  On
`YEAR(YEAR(x))` the first pass rewrites the outer call, leaving an inner
`YEAR(x)` that the second pass rewrites again. -/
theorem C6_counterexample :
    normalize_sql (normalize_sql "YEAR(YEAR(x))") ≠ normalize_sql "YEAR(YEAR(x))" ∧
    normalize_sql "YEAR(YEAR(x))" = "EXTRACT(YEAR FROM YEAR(x))" ∧
    normalize_sql "EXTRACT(YEAR FROM YEAR(x))"
      = "EXTRACT(YEAR FROM EXTRACT(YEAR FROM x))" := by
  refine ⟨?_, by decide, by decide⟩
  decide

/-- C6 (amended): `normalize_sql` is not idempotent in general — a rewrite
output can re-trigger a rule on the next pass, as with nested
`YEAR(YEAR(x))` — but it is the identity, and hence idempotent, on every
string that contains no backtick and none of the rule keywords
(case-insensitively). -/
theorem C6_normalize_idempotent_on_trigger_free :
    (∀ s : String, triggerFree s = true → normalize_sql s = s) ∧
    (∀ s : String, triggerFree s = true →
      normalize_sql (normalize_sql s) = normalize_sql s) := by
  refine ⟨normalize_sql_id, fun s h => ?_⟩
  rw [normalize_sql_id s h, normalize_sql_id s h]

/-- Witness for C6 at a concrete input: an ordinary SELECT statement is
trigger-free and `normalize_sql` fixes it. -/
theorem C6_normalize_idempotent_witness :
    normalize_sql "SELECT a, b FROM t WHERE c > 0" = "SELECT a, b FROM t WHERE c > 0" :=
  C6_normalize_idempotent_on_trigger_free.1 "SELECT a, b FROM t WHERE c > 0" (by decide)

/-- C9: in relaxed mode with a non-empty table context, the allowed-table
check of `enforce_allowlist` runs only when the lower-cased SQL padded with
one space on each side contains `" from "` literally; a FROM delimited by a
newline or a tab, or directly followed by `(`, skips the check entirely and
the call returns without raising, while the same statement with a
space-delimited FROM is rejected when it references no allowed table. -/
theorem C9_relaxed_from_gate :
    (∀ (sql : String) (ctx : ChartContext),
      containsL " from ".data (' ' :: (lowerL sql.data ++ [' '])) = false →
      exceptOk (enforce_allowlist sql ctx false) = true) ∧
    exceptOk (enforce_allowlist "SELECT * FROM\nsecret" ctxPricesClose false) = true ∧
    exceptOk (enforce_allowlist "SELECT * FROM\tsecret" ctxPricesClose false) = true ∧
    exceptOk (enforce_allowlist "SELECT * FROM(SELECT 1) x" ctxPricesClose false) = true ∧
    exceptOk (enforce_allowlist "SELECT * FROM secret" ctxPricesClose false) = false := by
  refine ⟨allowlist_relaxed_skip, ?_, ?_, ?_, ?_⟩ <;> decide

/-- Witness for C9 at a concrete input: `SELECT 1` contains no `" from "`,
so relaxed mode accepts it against the `prices` context. -/
theorem C9_relaxed_from_gate_witness :
    exceptOk (enforce_allowlist "SELECT 1" ctxPricesClose false) = true :=
  C9_relaxed_from_gate.1 "SELECT 1" ctxPricesClose (by decide)

/-- C10: in `plot_render`, the alias of an `alias.column` field is compared
case-sensitively against context table names while the column is compared
case-insensitively: against `prices(close)`, `PRICES.close` yields a
`Field not in context` issue while `prices.CLOSE` and bare `CLOSE` pass. -/
theorem C10_alias_case_sensitivity :
    (plot_render ⟨some "line", [("y", .fstr "PRICES.close")]⟩ ctxPricesClose).issues
      = ["Field not in context: PRICES.close (encoding.y)"] ∧
    (plot_render ⟨some "line", [("y", .fstr "PRICES.close")]⟩ ctxPricesClose).ok = false ∧
    (plot_render ⟨some "line", [("y", .fstr "prices.CLOSE")]⟩ ctxPricesClose).ok = true ∧
    (plot_render ⟨some "line", [("y", .fstr "prices.CLOSE")]⟩ ctxPricesClose).issues = [] ∧
    (plot_render ⟨some "line", [("y", .fstr "CLOSE")]⟩ ctxPricesClose).ok = true := by
  decide

end Finp
